import Mathlib

/-!
Shallow embedding of `clang_combined_time_trace.py`, a tool that combines
clang `-ftime-trace` files.  The embedding covers the trace-aggregation core:

* the event classifier (`TraceStatistics.load_event`),
* the per-file aggregation of occurrences into entities
  (`TraceStatistics.add_event`, `Entity.combine`),
* the interval nesting resolver (`TraceStatistics.finish`),
* the cross-file aggregator (`TotalStatistics.process_file_stats`).

Python dictionaries are modelled as association lists with Python dict
semantics (`aupdate` replaces the value in place when the key is present and
appends otherwise, `alookup` finds the first matching key).  Loosely typed
event fields (`dur`, `ts`, `tid`, `args/detail`) are modelled by `JVal`;
a missing dictionary key corresponds to `JVal.missing` and surfaces as the
`keyError` outcome, exactly as the Python `KeyError` would.  All fatal
`assert`s of the source are modelled as `Except`-errors.
-/

set_option linter.unusedVariables false

deriving instance DecidableEq for Except

namespace CTT

/-- A loosely typed JSON-ish value used for the event fields that the Python
code reads dynamically (`dur`, `ts`, `tid`, `args/detail`).  `missing` stands
for an absent dictionary key. -/
inductive JVal where
  | int (i : Int)
  | str (s : String)
  | missing
deriving DecidableEq

/-- Python comparison `v == n` between a dynamic value and an expected int. -/
def JVal.eqInt : JVal → Int → Bool
  | .int i, n => i == n
  | _, _ => false

/-- One raw trace event record, as read from the json file.  `ph`, `pid` and
`name` are kept typed (no claim exercises a malformed value there); the
dynamically checked fields are `JVal`s. -/
structure RawEvent where
  ph : String
  pid : Int
  name : String
  tid : JVal
  dur : JVal
  ts : JVal
  detail : JVal
deriving DecidableEq

def EXPECTED_PID : Int := 1
def EXPECTED_TID_FOR_NON_UNIQUE_EVENTS : Int := 0

def EXPECTED_EVENT_TYPES : List String := ["M", "X"]
def IGNORED_EVENT_TYPES : List String := ["M"]

def IGNORED_EVENT_NAMES : List String := [
  "Total ParseClass",
  "Total ParseTemplate",
  "Total PerformPendingInstantiations",
  "Total OptModule",
  "Total OptFunction",
  "Total RunPass",
  "Total RunLoopPass",
  "Total CodeGen Function",
  "ExecuteCompiler",
  "Frontend",
  "Backend",
  "OptModule",
  "OptFunction",
  "RunPass",
  "RunLoopPass",
  "ParseClass",
  "ParseTemplate",
  "PerformPendingInstantiations",
  "CodeGen Function"]

def PROCESSED_UNIQUE_EVENT_NAMES : List String := [
  "Total ExecuteCompiler",
  "Total Frontend",
  "Total Source",
  "Total InstantiateFunction",
  "Total InstantiateClass",
  "Total Backend"]

def PROCESSED_NON_UNIQUE_EVENT_NAMES : List String := [
  "Source",
  "InstantiateFunction",
  "InstantiateClass"]

/-- Every fatal outcome of the Python code: each `assert` and each possible
`KeyError` is one constructor. -/
inductive TraceError where
  | unexpectedEventType (t : String)
  | unexpectedPid
  | durNotInt
  | nonUniqueEvent (name : String)
  | unexpectedTid
  | unexpectedEventName (name : String)
  | detailNotStr
  | tsNotInt
  | combineDifferentEntities (a b : String)
  | inconsistentEventNames (name : String)
  | parentBeforeChild
  | finishedTwice
  | keyError (name : String)
deriving DecidableEq

/-- `ParentHeaderInfo.__init__`: a bucket is created with count 1. -/
structure ParentHeaderInfo where
  count : Nat
  file_name : String
  duration : Int
deriving DecidableEq

/-- `ParentSourcesInfo.__init__` starts at zero. -/
structure ParentSourcesInfo where
  count : Nat
  duration : Int
deriving DecidableEq

/-- `Entity`: the durable per-name statistic.  `parent_header_files` is the
dict from enclosing-header name to `ParentHeaderInfo`. -/
structure Entity where
  name : String
  event_name : String
  duration : Int
  parent_sources_info : ParentSourcesInfo
  parent_header_files : List (String × ParentHeaderInfo)
deriving DecidableEq

/-- Python dict read `d[key]` returning the first entry with that key. -/
def alookup {α : Type} : List (String × α) → String → Option α
  | [], _ => none
  | (k, v) :: rest, key => if k = key then some v else alookup rest key

/-- Python dict write `d[key] = v`: replaces the value in place when the key
is present, appends a new entry otherwise. -/
def aupdate {α : Type} : List (String × α) → String → α → List (String × α)
  | [], key, v => [(key, v)]
  | (k, v0) :: rest, key, v =>
    if k = key then (k, v) :: rest else (k, v0) :: aupdate rest key v

/-- In-place combination of a matching parent-header bucket in
`Entity.combine`: counts and durations are added, `file_name` stays. -/
def combineHeaderInfo (self other : ParentHeaderInfo) : ParentHeaderInfo :=
  { self with count := self.count + other.count,
              duration := self.duration + other.duration }

/-- The `for header_name, header_info in event.parent_header_files.items()`
loop of `Entity.combine`. -/
def mergeHeaderFiles (self : List (String × ParentHeaderInfo)) :
    List (String × ParentHeaderInfo) → List (String × ParentHeaderInfo)
  | [] => self
  | (h, info) :: rest =>
    match alookup self h with
    | some selfInfo => mergeHeaderFiles (aupdate self h (combineHeaderInfo selfInfo info)) rest
    | none => mergeHeaderFiles (aupdate self h info) rest

/-- `Entity.combine`: merge `event` into `self`; the two leading asserts are
the error cases. -/
def Entity.combine (self event : Entity) : Except TraceError Entity :=
  if self.name ≠ event.name then
    .error (.combineDifferentEntities self.name event.name)
  else if self.event_name ≠ event.event_name then
    .error (.inconsistentEventNames self.name)
  else
    .ok { self with
      duration := self.duration + event.duration
      parent_sources_info :=
        { count := self.parent_sources_info.count + event.parent_sources_info.count
          duration := self.parent_sources_info.duration + event.parent_sources_info.duration }
      parent_header_files := mergeHeaderFiles self.parent_header_files event.parent_header_files }

/-- The `total` dict of `Statistics.__init__` holds exactly the six
`PROCESSED_UNIQUE_EVENT_NAMES` keys; it is modelled as a six-field record. -/
structure Totals where
  executeCompiler : Int
  frontend : Int
  source : Int
  instantiateFunction : Int
  instantiateClass : Int
  backend : Int
deriving DecidableEq

def Totals.zero : Totals := ⟨0, 0, 0, 0, 0, 0⟩

/-- Read `total[name]` for one of the six scalar-total names. -/
def Totals.get (t : Totals) (name : String) : Int :=
  if name = "Total ExecuteCompiler" then t.executeCompiler
  else if name = "Total Frontend" then t.frontend
  else if name = "Total Source" then t.source
  else if name = "Total InstantiateFunction" then t.instantiateFunction
  else if name = "Total InstantiateClass" then t.instantiateClass
  else if name = "Total Backend" then t.backend
  else 0

/-- Write `total[name] = v` for one of the six scalar-total names. -/
def Totals.set (t : Totals) (name : String) (v : Int) : Totals :=
  if name = "Total ExecuteCompiler" then { t with executeCompiler := v }
  else if name = "Total Frontend" then { t with frontend := v }
  else if name = "Total Source" then { t with source := v }
  else if name = "Total InstantiateFunction" then { t with instantiateFunction := v }
  else if name = "Total InstantiateClass" then { t with instantiateClass := v }
  else if name = "Total Backend" then { t with backend := v }
  else t

/-- The `for name, time in file_statistics.total.items(): self.total[name] += time`
loop: componentwise addition of the six totals. -/
def Totals.add (a b : Totals) : Totals :=
  ⟨a.executeCompiler + b.executeCompiler, a.frontend + b.frontend,
   a.source + b.source, a.instantiateFunction + b.instantiateFunction,
   a.instantiateClass + b.instantiateClass, a.backend + b.backend⟩

/-- `TraceStatistics.TimeInfo`: one pending header-parse occurrence. -/
structure TimeInfo where
  entity_name : String
  timestamp : Int
  duration : Int
deriving DecidableEq

/-- `TraceStatistics`: the per-file aggregate. -/
structure TraceStatistics where
  total : Totals
  entities : List (String × Entity)
  time_infos : List TimeInfo
  finished : Bool
deriving DecidableEq

def TraceStatistics.init : TraceStatistics :=
  { total := Totals.zero, entities := [], time_infos := [], finished := false }

/-- `TraceStatistics._set_total`: the duplicate check is `total[name] == 0`. -/
def TraceStatistics.set_total (s : TraceStatistics) (name : String) (duration : Int) :
    Except TraceError TraceStatistics :=
  if s.total.get name = 0 then .ok { s with total := s.total.set name duration }
  else .error (.nonUniqueEvent name)

/-- `TraceStatistics._add_event`: merge an occurrence entity into the per-file
entity of the same name, or create it. -/
def TraceStatistics.add_event (s : TraceStatistics) (entity : Entity) :
    Except TraceError TraceStatistics :=
  match alookup s.entities entity.name with
  | some existed =>
    if existed.event_name ≠ entity.event_name then
      .error (.inconsistentEventNames entity.name)
    else
      match existed.combine entity with
      | .error e => .error e
      | .ok combined => .ok { s with entities := aupdate s.entities entity.name combined }
  | none => .ok { s with entities := aupdate s.entities entity.name entity }

/-- `TraceStatistics.load_event`: the event classifier, with the checks in
exactly the source order. -/
def TraceStatistics.load_event (s : TraceStatistics) (event : RawEvent) :
    Except TraceError TraceStatistics :=
  if event.ph ∉ EXPECTED_EVENT_TYPES then .error (.unexpectedEventType event.ph)
  else if event.pid ≠ EXPECTED_PID then .error .unexpectedPid
  else if event.ph ∈ IGNORED_EVENT_TYPES ∨ event.name ∈ IGNORED_EVENT_NAMES then .ok s
  else
    match event.dur with
    | .missing => .error (.keyError "dur")
    | .str _ => .error .durNotInt
    | .int duration =>
      if event.name ∈ PROCESSED_UNIQUE_EVENT_NAMES then
        s.set_total event.name duration
      else
        match event.tid with
        | .missing => .error (.keyError "tid")
        | tid =>
          if ¬ tid.eqInt EXPECTED_TID_FOR_NON_UNIQUE_EVENTS then .error .unexpectedTid
          else if event.name ∉ PROCESSED_NON_UNIQUE_EVENT_NAMES then
            .error (.unexpectedEventName event.name)
          else
            match event.detail with
            | .missing => .error (.keyError "detail")
            | .int _ => .error .detailNotStr
            | .str entity_name =>
              match s.add_event
                  { name := entity_name, event_name := event.name, duration := duration,
                    parent_sources_info := ⟨0, 0⟩, parent_header_files := [] } with
              | .error e => .error e
              | .ok s1 =>
                if event.name = "Source" then
                  match event.ts with
                  | .missing => .error (.keyError "ts")
                  | .str _ => .error .tsNotInt
                  | .int timestamp =>
                    .ok { s1 with time_infos :=
                            s1.time_infos ++ [⟨entity_name, timestamp, duration⟩] }
                else .ok s1

/-- The inner `while` loop of `TraceStatistics.finish`.  The Python stack has
its top at the end of the list; here the stack is kept top-first.  Returns the
remaining stack and the updated entities. -/
def popLoop (cur : TimeInfo) :
    List TimeInfo → List (String × Entity) →
    Except TraceError (List TimeInfo × List (String × Entity))
  | [], entities => .ok ([], entities)
  | top :: rest, entities =>
    if cur.timestamp ≤ top.timestamp then
      if top.timestamp + top.duration ≤ cur.timestamp + cur.duration then
        match alookup entities top.entity_name with
        | some entity =>
          let newFiles :=
            match alookup entity.parent_header_files cur.entity_name with
            | some info =>
              aupdate entity.parent_header_files cur.entity_name
                { info with count := info.count + 1, duration := info.duration + top.duration }
            | none =>
              aupdate entity.parent_header_files cur.entity_name
                ⟨1, cur.entity_name, top.duration⟩
          popLoop cur rest
            (aupdate entities top.entity_name { entity with parent_header_files := newFiles })
        | none => .error (.keyError top.entity_name)
      else .error .parentBeforeChild
    else .ok (top :: rest, entities)

/-- The outer `for time_info in self._time_infos` loop of `finish`, threading
the stack of waiting occurrences (top-first). -/
def finishLoop :
    List TimeInfo → List TimeInfo → List (String × Entity) →
    Except TraceError (List TimeInfo × List (String × Entity))
  | [], st, entities => .ok (st, entities)
  | cur :: rest, st, entities =>
    match popLoop cur st entities with
    | .error e => .error e
    | .ok (st2, entities2) => finishLoop rest (cur :: st2) entities2

/-- The final `for waiting_entity_info in waiting_entity_infos` loop of
`finish` (called on the remaining stack in Python order, bottom first). -/
def addParentSources :
    List TimeInfo → List (String × Entity) →
    Except TraceError (List (String × Entity))
  | [], entities => .ok entities
  | info :: rest, entities =>
    match alookup entities info.entity_name with
    | some entity =>
      addParentSources rest
        (aupdate entities info.entity_name
          { entity with parent_sources_info :=
              { count := entity.parent_sources_info.count + 1
                duration := entity.parent_sources_info.duration + info.duration } })
    | none => .error (.keyError info.entity_name)

/-- `TraceStatistics.finish`: run the interval nesting resolver once. -/
def TraceStatistics.finish (s : TraceStatistics) : Except TraceError TraceStatistics :=
  if s.finished then .error .finishedTwice
  else
    match finishLoop s.time_infos [] s.entities with
    | .error e => .error e
    | .ok (st, entities1) =>
      match addParentSources st.reverse entities1 with
      | .error e => .error e
      | .ok entities2 => .ok { s with finished := true, entities := entities2 }

/-- `TotalStatistics`: the process-wide aggregate. -/
structure TotalStatistics where
  total : Totals
  entities : List (String × Entity)
  file_count : Nat
  total_trace_file_size : Int
deriving DecidableEq

def TotalStatistics.init : TotalStatistics :=
  { total := Totals.zero, entities := [], file_count := 0, total_trace_file_size := 0 }

/-- The `for entity_name, entity in file_statistics.entities.items()` loop of
`TotalStatistics.process_file_stats`. -/
def mergeEntitiesInto (acc : List (String × Entity)) :
    List (String × Entity) → Except TraceError (List (String × Entity))
  | [] => .ok acc
  | (name, entity) :: rest =>
    match alookup acc name with
    | some existed =>
      match existed.combine entity with
      | .error e => .error e
      | .ok combined => mergeEntitiesInto (aupdate acc name combined) rest
    | none => mergeEntitiesInto (aupdate acc name entity) rest

/-- `TotalStatistics.process_file_stats`: finish the per-file statistics and
fold them into the running totals. -/
def TotalStatistics.process_file_stats (t : TotalStatistics) (file_size : Int)
    (fs : TraceStatistics) : Except TraceError TotalStatistics :=
  match fs.finish with
  | .error e => .error e
  | .ok fs2 =>
    match mergeEntitiesInto t.entities fs2.entities with
    | .error e => .error e
    | .ok entities2 =>
      .ok { total := t.total.add fs2.total
            entities := entities2
            file_count := t.file_count + 1
            total_trace_file_size := t.total_trace_file_size + file_size }

/-- The `for trace in trace_list` loop of `load_traces`, folding finished
per-file aggregates into the cross-file aggregate. -/
def foldFiles (t : TotalStatistics) :
    List (Int × TraceStatistics) → Except TraceError TotalStatistics
  | [] => .ok t
  | (size, fs) :: rest =>
    match t.process_file_stats size fs with
    | .error e => .error e
    | .ok t1 => foldFiles t1 rest

/-- The `for trace_event in trace['traceEvents']` loop of `load_trace`. -/
def loadEvents (s : TraceStatistics) : List RawEvent → Except TraceError TraceStatistics
  | [] => .ok s
  | e :: rest =>
    match s.load_event e with
    | .error err => .error err
    | .ok s1 => loadEvents s1 rest

/-- A scalar-total marker event with the given name and duration. -/
def mkTotalEvent (name : String) (dur : Int) : RawEvent :=
  { ph := "X", pid := 1, name := name, tid := .int 0, dur := .int dur,
    ts := .missing, detail := .missing }

/-- A `Source` (header parse) occurrence event. -/
def mkSourceEvent (file : String) (ts dur : Int) : RawEvent :=
  { ph := "X", pid := 1, name := "Source", tid := .int 0, dur := .int dur,
    ts := .int ts, detail := .str file }

/-- An `InstantiateFunction` occurrence event. -/
def mkInstEvent (fn : String) (dur : Int) : RawEvent :=
  { ph := "X", pid := 1, name := "InstantiateFunction", tid := .int 0, dur := .int dur,
    ts := .missing, detail := .str fn }

/-- End-to-end scenario A: the five events of the spec scenario, in order. -/
def scenarioAEvents : List RawEvent :=
  [mkTotalEvent "Total ExecuteCompiler" 1000,
   mkTotalEvent "Total Frontend" 600,
   mkTotalEvent "Total Backend" 400,
   mkSourceEvent "a.h" 0 500,
   mkSourceEvent "b.h" 0 600]

/-- Loading scenario A into one file's statistics and running nesting
resolution. -/
def scenarioAResult : Except TraceError TraceStatistics :=
  match loadEvents TraceStatistics.init scenarioAEvents with
  | .error e => .error e
  | .ok s => s.finish

/-- End-to-end scenario B: two files, each with one `Foo<int>` instantiation
occurrence (durations 10 and 15), folded into the cross-file aggregate. -/
def scenarioBResult : Except TraceError TotalStatistics :=
  match loadEvents TraceStatistics.init [mkInstEvent "Foo<int>" 10] with
  | .error e => .error e
  | .ok f1 =>
    match loadEvents TraceStatistics.init [mkInstEvent "Foo<int>" 15] with
    | .error e => .error e
    | .ok f2 => foldFiles TotalStatistics.init [(0, f1), (0, f2)]

/-- A scalar-total event with duration 0, used to exercise the duplicate
check of `_set_total`. -/
def zeroDurTotalEvent : RawEvent := mkTotalEvent "Total Frontend" 0

/-- An event with an unrecognized name on a wrong thread id. -/
def unknownNameWrongTidEvent : RawEvent :=
  { ph := "X", pid := 1, name := "SomeFutureCompilerPass", tid := .int 1,
    dur := .int 5, ts := .missing, detail := .missing }

/-- An ignored-name event carrying a missing `dur` and a non-int `tid`. -/
def ignoredJunkEvent : RawEvent :=
  { ph := "X", pid := 1, name := "Frontend", tid := .str "w",
    dur := .missing, ts := .missing, detail := .missing }

/-- A `Source`-kind entity used in the kind-mismatch instances. -/
def entN1 : Entity := ⟨"n", "Source", 1, ⟨0, 0⟩, []⟩

/-- An `InstantiateClass`-kind entity with the same name as `entN1`. -/
def entN2 : Entity := ⟨"n", "InstantiateClass", 2, ⟨0, 0⟩, []⟩

/-- A second `Source`-kind entity with the same name as `entN1`. -/
def entN3 : Entity := ⟨"n", "Source", 5, ⟨0, 0⟩, []⟩

/-- The result of merging `entN3` into `entN1`. -/
def entN13 : Entity := ⟨"n", "Source", 6, ⟨0, 0⟩, []⟩

/-- A per-file state already holding `entN1`. -/
def stateN : TraceStatistics :=
  { total := Totals.zero, entities := [("n", entN1)], time_infos := [], finished := false }

/-- An occurrence with a long interval, finishing first. -/
def violTop : TimeInfo := ⟨"x.h", 0, 10⟩

/-- A later occurrence whose interval starts no later than `violTop` but ends
before it: the containment assertion must fire. -/
def violCur : TimeInfo := ⟨"y.h", 0, 5⟩

/-- A per-file state whose pending occurrences violate containment. -/
def violState : TraceStatistics :=
  { total := Totals.zero, entities := [], time_infos := [violTop, violCur], finished := false }

/-- The state after loading a `Total Frontend` event with duration 7. -/
def stateTF7 : TraceStatistics :=
  { total := ⟨0, 7, 0, 0, 0, 0⟩, entities := [], time_infos := [], finished := false }

/-! Spec-side formulation of the interval nesting resolver, written from the
words of the specification (section 4.3) rather than from the code: the
popped prefix of the stack is the maximal prefix whose elements start no
earlier than the current occurrence (`takeWhile`), each popped element is
checked for containment and recorded as one parent bucket update, and the
remaining stack elements are finally attributed to the compiled source. -/

/-- Spec step 2a, recording clause: in `parent_header_files`, increment the
bucket keyed by the enclosing header name by one count and the popped
occurrence's duration, creating it with count 1 if absent. -/
def specBucketAdd (files : List (String × ParentHeaderInfo)) (parent : String)
    (dur : Int) : List (String × ParentHeaderInfo) :=
  match alookup files parent with
  | some info =>
    aupdate files parent { info with count := info.count + 1, duration := info.duration + dur }
  | none => aupdate files parent ⟨1, parent, dur⟩

/-- Spec step 2a: record the match in the Entity named after the popped
occurrence. -/
def specRecordMatch (E : List (String × Entity)) (topName parentName : String)
    (dur : Int) : Except TraceError (List (String × Entity)) :=
  match alookup E topName with
  | some ent =>
    .ok (aupdate E topName
      { ent with parent_header_files := specBucketAdd ent.parent_header_files parentName dur })
  | none => .error (.keyError topName)

/-- Spec step 2a for one popped element: assert containment, then record. -/
def specPopOne (cur : TimeInfo) (E : List (String × Entity)) (top : TimeInfo) :
    Except TraceError (List (String × Entity)) :=
  if top.timestamp + top.duration ≤ cur.timestamp + cur.duration then
    specRecordMatch E top.entity_name cur.entity_name top.duration
  else .error .parentBeforeChild

/-- Spec step 2 for one occurrence: pop the maximal starts-no-earlier prefix
of the stack, process each popped element in order, push the occurrence. -/
def specStep (cur : TimeInfo) (p : List TimeInfo × List (String × Entity)) :
    Except TraceError (List TimeInfo × List (String × Entity)) :=
  match (p.1.takeWhile fun t => decide (cur.timestamp ≤ t.timestamp)).foldlM
      (specPopOne cur) p.2 with
  | .error e => .error e
  | .ok E2 => .ok (cur :: p.1.dropWhile fun t => decide (cur.timestamp ≤ t.timestamp), E2)

/-- Spec step 3 for one remaining occurrence: attribute it to the compiled
source file. -/
def specPsiAdd (E : List (String × Entity)) (info : TimeInfo) :
    Except TraceError (List (String × Entity)) :=
  match alookup E info.entity_name with
  | some ent =>
    .ok (aupdate E info.entity_name
      { ent with parent_sources_info :=
          { count := ent.parent_sources_info.count + 1
            duration := ent.parent_sources_info.duration + info.duration } })
  | none => .error (.keyError info.entity_name)

/-- The whole spec algorithm: fold step 2 over the occurrences in arrival
order starting from the empty stack, then fold step 3 over the remaining
stack (oldest first). -/
def specNesting (infos : List TimeInfo) (E : List (String × Entity)) :
    Except TraceError (List (String × Entity)) :=
  match infos.foldlM (fun p cur => specStep cur p) ([], E) with
  | .error e => .error e
  | .ok (st, E1) => st.reverse.foldlM specPsiAdd E1

/-- A small per-file state with one pending occurrence, used as the C1
witness input. -/
def oneSourceState : TraceStatistics :=
  { total := Totals.zero,
    entities := [("x.h", ⟨"x.h", "Source", 7, ⟨0, 0⟩, []⟩)],
    time_infos := [⟨"x.h", 0, 7⟩], finished := false }

/-! Definitions for the attribution-conservation invariant (claim C9) and for
the order-independence of the cross-file fold (claim C4). -/

/-- Weighted sum of the values of an association list. -/
def wsum {α : Type} (w : α → Nat) (l : List (String × α)) : Nat :=
  (l.map fun p => w p.2).sum

/-- Number of attributions recorded in one entity: its source-level count
plus the counts of all its parent-header buckets. -/
def entityAttr (e : Entity) : Nat :=
  e.parent_sources_info.count + wsum ParentHeaderInfo.count e.parent_header_files

/-- Total number of attributions recorded in an entity map. -/
def attrSum (l : List (String × Entity)) : Nat := wsum entityAttr l

/-- Total number of attributions recorded in the header-parse entities. -/
def attrSumSource (l : List (String × Entity)) : Nat :=
  attrSum (l.filter fun p => p.2.event_name == "Source")

/-- Number of events classified as header-parse (`Source`) occurrences. -/
def countSource : List RawEvent → Nat
  | [] => 0
  | e :: rest => (if e.ph = "X" ∧ e.name = "Source" then 1 else 0) + countSource rest

/-- The keys of an association list are pairwise distinct — every list that
models a Python dict satisfies this. -/
def nodupKeys {α : Type} (l : List (String × α)) : Prop := (l.map Prod.fst).Nodup

/-- Every pending occurrence names an existing header-parse entity. -/
def tracked (E : List (String × Entity)) (infos : List TimeInfo) : Prop :=
  ∀ t ∈ infos, ∃ e, alookup E t.entity_name = some e ∧ e.event_name = "Source"

/-- One entity map refines another while preserving each kind. -/
def kindPreserving (E E2 : List (String × Entity)) : Prop :=
  ∀ n e0, alookup E n = some e0 →
    ∃ e1, alookup E2 n = some e1 ∧ e1.event_name = e0.event_name

/-- The order-insensitive content of one optional parent bucket: its count
and duration (the redundant `file_name` field, which always repeats the
bucket key in reachable states, is not part of the claimed equality). -/
def phAbs : Option ParentHeaderInfo → Option (Nat × Int)
  | none => none
  | some i => some (i.count, i.duration)

/-- Pointwise union-with-addition of optional bucket contents. -/
def ptAdd : Option (Nat × Int) → Option (Nat × Int) → Option (Nat × Int)
  | none, y => y
  | some x, none => some x
  | some x, some y => some (x.1 + y.1, x.2 + y.2)

/-- Total contribution of a bucket list at one key (summing duplicates). -/
def ePH : List (String × ParentHeaderInfo) → String → Option (Nat × Int)
  | [], _ => none
  | (k, i) :: rest, h =>
    if k = h then ptAdd (some (i.count, i.duration)) (ePH rest h) else ePH rest h

/-- Two bucket maps agree on every key's count and duration. -/
def bucketsEquiv (x y : List (String × ParentHeaderInfo)) : Prop :=
  ∀ h, phAbs (alookup x h) = phAbs (alookup y h)

/-- Two entities agree on every claimed field: name, kind, duration,
source-attribution info, and every parent bucket's count and duration. -/
def EntityEquiv (a b : Entity) : Prop :=
  a.name = b.name ∧ a.event_name = b.event_name ∧ a.duration = b.duration ∧
  a.parent_sources_info = b.parent_sources_info ∧
  bucketsEquiv a.parent_header_files b.parent_header_files

/-- `EntityEquiv` lifted to optional entities. -/
def oRel : Option Entity → Option Entity → Prop
  | none, none => True
  | some a, some b => EntityEquiv a b
  | _, _ => False

/-- Two entity maps hold equivalent entities under every name. -/
def entitiesEquiv (x y : List (String × Entity)) : Prop :=
  ∀ n, oRel (alookup x n) (alookup y n)

/-- Two cross-file aggregates agree on all claimed content. -/
def TotalEquiv (t u : TotalStatistics) : Prop :=
  t.total = u.total ∧ t.file_count = u.file_count ∧
  t.total_trace_file_size = u.total_trace_file_size ∧
  entitiesEquiv t.entities u.entities

/-- Two fallible results are related when both fail or both succeed with
related values. -/
def ExceptRel {ε α : Type} (R : α → α → Prop) : Except ε α → Except ε α → Prop
  | .error _, .error _ => True
  | .ok a, .ok b => R a b
  | _, _ => False

/-- The effect of the cross-file merge loop at a single name: merge the
file's entity under that name (if any) into the aggregate's entity under
that name (if any). -/
def mstep (o oe : Option Entity) : Except TraceError (Option Entity) :=
  match oe with
  | none => .ok o
  | some e =>
    match o with
    | none => .ok (some e)
    | some a =>
      match a.combine e with
      | .error err => .error err
      | .ok c => .ok (some c)

/-- Key distinctness is decidable. -/
instance {α : Type} (l : List (String × α)) : Decidable (nodupKeys l) :=
  inferInstanceAs (Decidable ((l.map Prod.fst).Nodup))

/-- The effect at a single name of merging two files in sequence. -/
def twoStep (o x y : Option Entity) : Except TraceError (Option Entity) :=
  match mstep o x with
  | .error e => .error e
  | .ok o1 => mstep o1 y

/-- Well-formedness of an entity map as the image of a Python dict: distinct
keys, and distinct keys inside every entity's bucket dict. -/
def entsWF (l : List (String × Entity)) : Prop :=
  nodupKeys l ∧ ∀ p ∈ l, nodupKeys (p.2 : Entity).parent_header_files

/-- Well-formedness is decidable. -/
instance (l : List (String × Entity)) : Decidable (entsWF l) :=
  inferInstanceAs (Decidable
    (nodupKeys l ∧ ∀ p ∈ l, nodupKeys (p.2 : Entity).parent_header_files))

/-- A per-file aggregate with one `Foo<int>` instantiation of duration 10. -/
def c4file1 : TraceStatistics :=
  { total := Totals.zero,
    entities := [("Foo<int>", ⟨"Foo<int>", "InstantiateFunction", 10, ⟨0, 0⟩, []⟩)],
    time_infos := [], finished := false }

/-- A per-file aggregate with one `Foo<int>` instantiation of duration 15. -/
def c4file2 : TraceStatistics :=
  { total := Totals.zero,
    entities := [("Foo<int>", ⟨"Foo<int>", "InstantiateFunction", 15, ⟨0, 0⟩, []⟩)],
    time_infos := [], finished := false }

/-- Scenario A right after loading, before nesting resolution. -/
def scenarioALoaded : TraceStatistics :=
  { total := ⟨1000, 600, 0, 0, 0, 400⟩,
    entities := [("a.h", ⟨"a.h", "Source", 500, ⟨0, 0⟩, []⟩),
                 ("b.h", ⟨"b.h", "Source", 600, ⟨0, 0⟩, []⟩)],
    time_infos := [⟨"a.h", 0, 500⟩, ⟨"b.h", 0, 600⟩],
    finished := false }

/-- Scenario A after nesting resolution. -/
def scenarioAFinal : TraceStatistics :=
  { total := ⟨1000, 600, 0, 0, 0, 400⟩,
    entities := [("a.h", ⟨"a.h", "Source", 500, ⟨0, 0⟩, [("b.h", ⟨1, "b.h", 500⟩)]⟩),
                 ("b.h", ⟨"b.h", "Source", 600, ⟨1, 600⟩, []⟩)],
    time_infos := [⟨"a.h", 0, 500⟩, ⟨"b.h", 0, 600⟩],
    finished := true }

end CTT

namespace CTT

/-- Claim C2: in scenario A, after nesting resolution the entity `b.h` has an
empty `parent_header_files` mapping and `parent_sources_info.count = 1`
(duration 600), and the entity `a.h` has exactly one parent bucket, keyed
`b.h`, with count 1 and duration 500. -/
theorem c2_scenario_a :
    (match scenarioAResult with
     | .ok s => (alookup s.entities "b.h", alookup s.entities "a.h")
     | .error _ => (none, none)) =
      (some ⟨"b.h", "Source", 600, ⟨1, 600⟩, []⟩,
       some ⟨"a.h", "Source", 500, ⟨0, 0⟩, [("b.h", ⟨1, "b.h", 500⟩)]⟩) := by
  decide

/-- Claim C5: folding the two scenario-B files into the cross-file aggregate
gives the process-wide entity `Foo<int>` duration 25. -/
theorem c5_scenario_b :
    (match scenarioBResult with
     | .ok t => (alookup t.entities "Foo<int>").map Entity.duration
     | .error _ => none) = some 25 := by
  decide

/-- Claim C10: an event whose phase is metadata or whose name is in the
static ignore list, with the expected process id and a valid phase, is
accepted and leaves the statistics unchanged; `dur`, `ts`, `tid` and the
detail payload are never inspected (they are quantified over freely here). -/
theorem c10_ignored_events (s : TraceStatistics) (e : RawEvent)
    (hph : e.ph ∈ EXPECTED_EVENT_TYPES) (hpid : e.pid = EXPECTED_PID)
    (hign : e.ph ∈ IGNORED_EVENT_TYPES ∨ e.name ∈ IGNORED_EVENT_NAMES) :
    s.load_event e = .ok s := by
  simp [TraceStatistics.load_event, hph, hpid, hign]

/-- Witness for C10: an ignored-name event with missing `dur` and a string
`tid` is accepted without touching the state. -/
theorem c10_witness : TraceStatistics.init.load_event ignoredJunkEvent = .ok TraceStatistics.init :=
  c10_ignored_events TraceStatistics.init ignoredJunkEvent (by decide) (by decide) (by decide)

/-- Counterexample to claim C6 as stated: a first `Total Frontend` event with
duration 0 leaves the total at its unset sentinel `0`, so loading the same
scalar-total name a second time succeeds instead of failing. -/
theorem c6_counterexample :
    (match TraceStatistics.init.load_event zeroDurTotalEvent with
     | .ok s1 => s1.load_event zeroDurTotalEvent
     | .error e => .error e) = .ok TraceStatistics.init := by
  decide

/-- All six scalar-total names avoid the static ignore list. -/
theorem unique_not_ignored :
    ∀ nm ∈ PROCESSED_UNIQUE_EVENT_NAMES, nm ∉ IGNORED_EVENT_NAMES := by
  decide

/-- Classification of a scalar-total event: with a valid phase, the expected
pid, a name among the six scalar-total names and an int duration, loading
routes to `set_total`. -/
theorem load_unique (s : TraceStatistics) (e : RawEvent) (nm : String) (d : Int)
    (hph : e.ph = "X") (hpid : e.pid = 1) (hnm : e.name = nm) (hd : e.dur = .int d)
    (hu : nm ∈ PROCESSED_UNIQUE_EVENT_NAMES) :
    s.load_event e = s.set_total nm d := by
  have hig : nm ∉ IGNORED_EVENT_NAMES := unique_not_ignored nm hu
  simp [TraceStatistics.load_event, hph, hpid, hnm, hd, hu, hig,
    EXPECTED_EVENT_TYPES, IGNORED_EVENT_TYPES, EXPECTED_PID]

/-- A successful `set_total` implies the total was at its `0` sentinel and is
now set to the event duration. -/
theorem set_total_ok (s s1 : TraceStatistics) (nm : String) (d : Int)
    (h : s.set_total nm d = .ok s1) :
    s.total.get nm = 0 ∧ s1.total = s.total.set nm d := by
  unfold TraceStatistics.set_total at h
  split at h
  · cases h
    exact ⟨by assumption, rfl⟩
  · cases h

/-- Setting one of the six scalar totals makes its `get` return the value. -/
theorem get_set_same (t : Totals) (nm : String) (v : Int)
    (hnm : nm ∈ PROCESSED_UNIQUE_EVENT_NAMES) : (t.set nm v).get nm = v := by
  fin_cases hnm <;> simp [Totals.get, Totals.set]

/-- Claim C6, amended: loading two scalar-total events with the same name
into one file fails on the second load with the duplicate-unique-total error
provided the first event's duration is nonzero (the code detects a duplicate
by the stored total being nonzero, so a first duration of 0 escapes). -/
theorem c6_duplicate_total_amended (s s1 : TraceStatistics) (e1 e2 : RawEvent)
    (nm : String) (d1 d2 : Int)
    (hnm : nm ∈ PROCESSED_UNIQUE_EVENT_NAMES)
    (h1ph : e1.ph = "X") (h1pid : e1.pid = 1) (h1nm : e1.name = nm)
    (h1d : e1.dur = .int d1) (hd1 : d1 ≠ 0)
    (h2ph : e2.ph = "X") (h2pid : e2.pid = 1) (h2nm : e2.name = nm)
    (h2d : e2.dur = .int d2)
    (hload : s.load_event e1 = .ok s1) :
    s1.load_event e2 = .error (.nonUniqueEvent nm) := by
  rw [load_unique s e1 nm d1 h1ph h1pid h1nm h1d hnm] at hload
  obtain ⟨hz, hs1⟩ := set_total_ok s s1 nm d1 hload
  rw [load_unique s1 e2 nm d2 h2ph h2pid h2nm h2d hnm]
  unfold TraceStatistics.set_total
  rw [hs1, get_set_same s.total nm d1 hnm]
  simp [hd1]

/-- Witness for the amended C6: two `Total Frontend` events with durations 7
and 9; the second load fails with the duplicate-unique-total error. -/
theorem c6_amended_witness :
    stateTF7.load_event (mkTotalEvent "Total Frontend" 9) =
      .error (.nonUniqueEvent "Total Frontend") :=
  c6_duplicate_total_amended TraceStatistics.init stateTF7
    (mkTotalEvent "Total Frontend" 7) (mkTotalEvent "Total Frontend" 9)
    "Total Frontend" 7 9 (by decide) rfl rfl rfl rfl (by decide) rfl rfl rfl rfl
    (by decide)

/-- Counterexample to claim C7 as stated: an event with a processed phase and
an unrecognized name, but a wrong thread id, fails with the wrong-thread
error rather than the unrecognized-event error. -/
theorem c7_counterexample :
    TraceStatistics.init.load_event unknownNameWrongTidEvent = .error .unexpectedTid ∧
    TraceStatistics.init.load_event unknownNameWrongTidEvent ≠
      .error (.unexpectedEventName "SomeFutureCompilerPass") := by
  decide

/-- Claim C7, amended: an event with the processed phase `X`, the expected
pid, an integer duration and the expected thread id, whose name is in none of
the ignore, scalar-total and occurrence-kind tables, fails with the
unrecognized-event error naming that event; if an earlier validation fails
(wrong pid, non-int `dur`, wrong `tid`) that earlier malformed-input error is
reported instead. -/
theorem c7_unrecognized_amended (s : TraceStatistics) (e : RawEvent) (d : Int)
    (hph : e.ph = "X") (hpid : e.pid = EXPECTED_PID)
    (hig : e.name ∉ IGNORED_EVENT_NAMES)
    (hu : e.name ∉ PROCESSED_UNIQUE_EVENT_NAMES)
    (hnu : e.name ∉ PROCESSED_NON_UNIQUE_EVENT_NAMES)
    (hd : e.dur = .int d)
    (htid : e.tid = .int EXPECTED_TID_FOR_NON_UNIQUE_EVENTS) :
    s.load_event e = .error (.unexpectedEventName e.name) := by
  simp [TraceStatistics.load_event, hph, hpid, hig, hu, hnu, hd, htid,
    EXPECTED_EVENT_TYPES, IGNORED_EVENT_TYPES, JVal.eqInt,
    EXPECTED_TID_FOR_NON_UNIQUE_EVENTS, EXPECTED_PID]

/-- Witness for the amended C7: the `SomeFutureCompilerPass` event on the
expected thread aborts with the unrecognized-event error naming it. -/
theorem c7_amended_witness :
    TraceStatistics.init.load_event
        { ph := "X", pid := 1, name := "SomeFutureCompilerPass", tid := .int 0,
          dur := .int 5, ts := .missing, detail := .missing } =
      .error (.unexpectedEventName "SomeFutureCompilerPass") :=
  c7_unrecognized_amended TraceStatistics.init _ 5 rfl (by decide) (by decide)
    (by decide) (by decide) rfl rfl

/-- Claim C8: merging entities that share a name but differ in kind fails
with the entity-kind-mismatch error, in `Entity.combine` itself, in the
within-file path `_add_event`, and in the cross-file merge loop of
`process_file_stats`; and a successful merge never changes an entity's name
or kind. -/
theorem c8_kind_mismatch :
    (∀ a b : Entity, a.name = b.name → a.event_name ≠ b.event_name →
        a.combine b = .error (.inconsistentEventNames a.name)) ∧
    (∀ (s : TraceStatistics) (ent e0 : Entity),
        alookup s.entities ent.name = some e0 → e0.event_name ≠ ent.event_name →
        s.add_event ent = .error (.inconsistentEventNames ent.name)) ∧
    (∀ (acc : List (String × Entity)) (n : String) (e e0 : Entity)
        (rest : List (String × Entity)),
        alookup acc n = some e0 → e0.name = e.name → e0.event_name ≠ e.event_name →
        mergeEntitiesInto acc ((n, e) :: rest) = .error (.inconsistentEventNames e0.name)) ∧
    (∀ a b c : Entity, a.combine b = .ok c →
        c.name = a.name ∧ c.event_name = a.event_name) := by
  refine ⟨?_, ?_, ?_, ?_⟩
  · intro a b hn hk
    simp [Entity.combine, hn, hk]
  · intro s ent e0 hl hk
    simp [TraceStatistics.add_event, hl, hk]
  · intro acc n e e0 rest hl hn hk
    simp [mergeEntitiesInto, hl, Entity.combine, hn, hk]
  · intro a b c h
    unfold Entity.combine at h
    split at h
    · cases h
    · split at h
      · cases h
      · cases h
        exact ⟨rfl, rfl⟩

/-- Witness for C8: concrete kind-mismatch failures in all three paths, and
kind preservation on a successful merge. -/
theorem c8_witness :
    entN1.combine entN2 = .error (.inconsistentEventNames "n") ∧
    stateN.add_event entN2 = .error (.inconsistentEventNames "n") ∧
    mergeEntitiesInto [("n", entN1)] [("n", entN2)] =
      .error (.inconsistentEventNames "n") ∧
    (entN13.name = entN1.name ∧ entN13.event_name = entN1.event_name) :=
  ⟨c8_kind_mismatch.1 entN1 entN2 rfl (by decide),
   c8_kind_mismatch.2.1 stateN entN2 entN1 (by decide) (by decide),
   c8_kind_mismatch.2.2.1 [("n", entN1)] "n" entN2 entN1 [] (by decide) rfl (by decide),
   c8_kind_mismatch.2.2.2 entN1 entN3 entN13 (by decide)⟩

/-- Processing a split occurrence list runs the resolver loop in two stages. -/
theorem finishLoop_append (xs ys : List TimeInfo) (st : List TimeInfo)
    (E : List (String × Entity)) :
    finishLoop (xs ++ ys) st E =
      match finishLoop xs st E with
      | .error e => .error e
      | .ok (st2, E2) => finishLoop ys st2 E2 := by
  induction xs generalizing st E with
  | nil => simp [finishLoop]
  | cons x xs ih =>
    simp only [List.cons_append, finishLoop]
    cases popLoop x st E with
    | error e => rfl
    | ok p => exact ih (x :: p.1) p.2

/-- Claim C3: whenever the resolver pops an occurrence `top` (because the
current occurrence starts no later than it) whose interval outlives the
current occurrence's interval, it fails with the structural-nesting-violation
error before recording any parent bucket; consequently `finish` fails with
that error whenever such a configuration is reached. -/
theorem c3_containment_violation :
    (∀ (cur top : TimeInfo) (st : List TimeInfo) (E : List (String × Entity)),
        cur.timestamp ≤ top.timestamp →
        top.timestamp + top.duration > cur.timestamp + cur.duration →
        popLoop cur (top :: st) E = .error .parentBeforeChild) ∧
    (∀ (s : TraceStatistics) (processed rest : List TimeInfo) (cur top : TimeInfo)
        (st : List TimeInfo) (E : List (String × Entity)),
        s.finished = false →
        s.time_infos = processed ++ cur :: rest →
        finishLoop processed [] s.entities = .ok (top :: st, E) →
        cur.timestamp ≤ top.timestamp →
        top.timestamp + top.duration > cur.timestamp + cur.duration →
        s.finish = .error .parentBeforeChild) := by
  constructor
  · intro cur top st E hle hgt
    simp [popLoop, hle, not_le.mpr hgt]
  · intro s processed rest cur top st E hfin htime hloop hle hgt
    have hpop : popLoop cur (top :: st) E = .error .parentBeforeChild := by
      simp [popLoop, hle, not_le.mpr hgt]
    unfold TraceStatistics.finish
    rw [if_neg (by simp [hfin]), htime, finishLoop_append, hloop]
    simp [finishLoop, hpop]

/-- Witness for C3: the concrete occurrence pair `violTop`, `violCur` makes
both the pop step and the whole resolution fail with the structural error. -/
theorem c3_witness :
    popLoop violCur [violTop] [] = .error .parentBeforeChild ∧
    violState.finish = .error .parentBeforeChild :=
  ⟨c3_containment_violation.1 violCur violTop [] [] (by decide) (by decide),
   c3_containment_violation.2 violState [violTop] [] violCur violTop [] [] rfl
     (by decide) (by decide) (by decide) (by decide)⟩

/-- The code's inner while loop equals the spec's takeWhile/dropWhile
formulation of step 2. -/
theorem popLoop_eq_spec (cur : TimeInfo) (st : List TimeInfo)
    (E : List (String × Entity)) :
    popLoop cur st E =
      match (st.takeWhile fun t => decide (cur.timestamp ≤ t.timestamp)).foldlM
          (specPopOne cur) E with
      | .error e => .error e
      | .ok E2 => .ok (st.dropWhile fun t => decide (cur.timestamp ≤ t.timestamp), E2) := by
  induction st generalizing E with
  | nil => rfl
  | cons top rest ih =>
    by_cases hle : cur.timestamp ≤ top.timestamp
    · rw [List.takeWhile_cons_of_pos (by simpa using hle),
        List.dropWhile_cons_of_pos (by simpa using hle), List.foldlM_cons]
      by_cases hct : top.timestamp + top.duration ≤ cur.timestamp + cur.duration
      · cases hEnt : alookup E top.entity_name with
        | some entity =>
          have hone : specPopOne cur E top =
              .ok (aupdate E top.entity_name
                { entity with parent_header_files :=
                    specBucketAdd entity.parent_header_files cur.entity_name top.duration }) := by
            simp [specPopOne, hct, specRecordMatch, hEnt]
          simp only [popLoop, if_pos hle, if_pos hct, hEnt, hone, specBucketAdd]
          rw [ih]
          rfl
        | none =>
          have hone : specPopOne cur E top = .error (.keyError top.entity_name) := by
            simp [specPopOne, hct, specRecordMatch, hEnt]
          simp [popLoop, if_pos hle, if_pos hct, hEnt, hone, Bind.bind, Except.bind]
      · have hone : specPopOne cur E top = .error .parentBeforeChild := by
          simp [specPopOne, hct]
        simp [popLoop, if_pos hle, hct, hone, Bind.bind, Except.bind]
    · rw [List.takeWhile_cons_of_neg (by simpa using hle),
        List.dropWhile_cons_of_neg (by simpa using hle)]
      simp [popLoop, hle, pure, Except.pure]

/-- The code's outer loop equals the spec's fold of step 2. -/
theorem finishLoop_eq_spec (infos : List TimeInfo) (st : List TimeInfo)
    (E : List (String × Entity)) :
    finishLoop infos st E = infos.foldlM (fun p cur => specStep cur p) (st, E) := by
  induction infos generalizing st E with
  | nil => rfl
  | cons cur rest ih =>
    rw [List.foldlM_cons, finishLoop, popLoop_eq_spec]
    cases h : (st.takeWhile fun t => decide (cur.timestamp ≤ t.timestamp)).foldlM
        (specPopOne cur) E with
    | error e => simp [specStep, h, Bind.bind, Except.bind]
    | ok E2 =>
      simp only [specStep, h]
      rw [ih]
      rfl

/-- The code's final source-attribution loop equals the spec's fold of
step 3. -/
theorem addParentSources_eq_spec (l : List TimeInfo) (E : List (String × Entity)) :
    addParentSources l E = l.foldlM specPsiAdd E := by
  induction l generalizing E with
  | nil => rfl
  | cons info rest ih =>
    rw [List.foldlM_cons, addParentSources]
    cases h : alookup E info.entity_name with
    | some ent =>
      simp only [h, specPsiAdd]
      rw [ih]
      rfl
    | none => simp [h, specPsiAdd, Bind.bind, Except.bind]

/-- Claim C1: on an unfinished per-file state, the code's nesting resolution
`TraceStatistics.finish` computes exactly the spec-side algorithm
`specNesting`: every popped occurrence adds one count and its duration to the
bucket keyed by the enclosing occurrence's name in the Entity named after the
popped occurrence (creating the bucket with count 1 when absent), and every
occurrence remaining on the stack adds one count and its duration to its
Entity's `parent_sources_info`. -/
theorem c1_finish_refines_spec (s : TraceStatistics) (hfin : s.finished = false) :
    s.finish =
      match specNesting s.time_infos s.entities with
      | .error e => .error e
      | .ok ents => .ok { s with finished := true, entities := ents } := by
  unfold TraceStatistics.finish specNesting
  rw [if_neg (by simp [hfin]), finishLoop_eq_spec]
  cases h : List.foldlM (fun p cur => specStep cur p) (([], s.entities) :
      List TimeInfo × List (String × Entity)) s.time_infos with
  | error e => simp [h]
  | ok p =>
    obtain ⟨st, E1⟩ := p
    simp only [h]
    rw [addParentSources_eq_spec]

/-- Witness for C1: the refinement evaluated on a concrete one-occurrence
state. -/
theorem c1_witness :
    oneSourceState.finished = false ∧
    oneSourceState.finish =
      match specNesting oneSourceState.time_infos oneSourceState.entities with
      | .error e => .error e
      | .ok ents => .ok { oneSourceState with finished := true, entities := ents } :=
  ⟨rfl, c1_finish_refines_spec oneSourceState rfl⟩

/-! Generic lemmas about the dict model. -/

/-- Lookup after a dict write. -/
theorem alookup_aupdate {α : Type} (l : List (String × α)) (k : String) (v : α)
    (k2 : String) :
    alookup (aupdate l k v) k2 = if k = k2 then some v else alookup l k2 := by
  induction l with
  | nil => by_cases h : k = k2 <;> simp [aupdate, alookup, h]
  | cons p rest ih =>
    obtain ⟨k0, v0⟩ := p
    by_cases h0 : k0 = k
    · subst h0
      by_cases h2 : k0 = k2 <;> simp [aupdate, alookup, h2]
    · by_cases h2 : k0 = k2
      · subst h2
        have hk : ¬ k = k0 := fun h => h0 h.symm
        simp [aupdate, h0, alookup, hk]
      · simp [aupdate, h0, alookup, h2, ih]

/-- The key list after a dict write. -/
theorem keys_aupdate {α : Type} (l : List (String × α)) (k : String) (v : α) :
    (aupdate l k v).map Prod.fst =
      if k ∈ l.map Prod.fst then l.map Prod.fst else l.map Prod.fst ++ [k] := by
  induction l with
  | nil => simp [aupdate]
  | cons p rest ih =>
    obtain ⟨k0, v0⟩ := p
    by_cases h0 : k0 = k
    · subst h0
      simp [aupdate]
    · have : ¬ k = k0 := fun h => h0 h.symm
      by_cases hm : k ∈ rest.map Prod.fst <;>
        simp [aupdate, h0, ih, hm, this]

/-- A dict write preserves key distinctness. -/
theorem nodupKeys_aupdate {α : Type} {l : List (String × α)} (h : nodupKeys l)
    (k : String) (v : α) : nodupKeys (aupdate l k v) := by
  unfold nodupKeys at h ⊢
  rw [keys_aupdate]
  split_ifs with hmem
  · exact h
  · refine List.Nodup.append h (List.nodup_singleton k) ?_
    intro a ha hb
    rw [List.mem_singleton] at hb
    subst hb
    exact hmem ha

/-- A missing lookup means the key is absent. -/
theorem alookup_eq_none {α : Type} (l : List (String × α)) (k : String) :
    alookup l k = none ↔ k ∉ l.map Prod.fst := by
  induction l with
  | nil => simp [alookup]
  | cons p rest ih =>
    obtain ⟨k0, v0⟩ := p
    by_cases h0 : k0 = k
    · subst h0
      simp [alookup]
    · have hk : ¬ k = k0 := fun h => h0 h.symm
      simp [alookup, h0, ih, hk]

/-- A successful lookup returns a member of the list. -/
theorem alookup_mem {α : Type} {l : List (String × α)} {k : String} {v : α}
    (h : alookup l k = some v) : (k, v) ∈ l := by
  induction l with
  | nil => cases h
  | cons p rest ih =>
    obtain ⟨k0, v0⟩ := p
    by_cases h0 : k0 = k
    · subst h0
      simp [alookup] at h
      simp [h]
    · simp [alookup, h0] at h
      exact List.mem_cons_of_mem _ (ih h)

/-- With distinct keys, every member is found by lookup. -/
theorem mem_alookup {α : Type} {l : List (String × α)} {k : String} {v : α}
    (hnd : nodupKeys l) (h : (k, v) ∈ l) : alookup l k = some v := by
  induction l with
  | nil => cases h
  | cons p rest ih =>
    obtain ⟨k0, v0⟩ := p
    rcases List.mem_cons.mp h with heq | hmem
    · cases heq
      simp [alookup]
    · have hk0 : k0 ≠ k := by
        intro hk
        subst hk
        have : k0 ∈ rest.map Prod.fst :=
          List.mem_map.mpr ⟨(k0, v), hmem, rfl⟩
        exact (List.nodup_cons.mp hnd).1 this
      have hrest : nodupKeys rest := (List.nodup_cons.mp hnd).2
      simp [alookup, hk0]
      exact ih hrest hmem

/-- Weighted sum after overwriting an existing key. -/
theorem wsum_aupdate_some {α : Type} (w : α → Nat) {l : List (String × α)}
    {k : String} {v0 : α} (hl : alookup l k = some v0) (v : α) :
    wsum w (aupdate l k v) + w v0 = wsum w l + w v := by
  induction l with
  | nil => cases hl
  | cons p rest ih =>
    obtain ⟨k0, u⟩ := p
    by_cases h0 : k0 = k
    · subst h0
      simp [alookup] at hl
      subst hl
      simp [aupdate, wsum]
      omega
    · simp [alookup, h0] at hl
      have := ih hl
      simp [aupdate, h0, wsum] at this ⊢
      omega

/-- Weighted sum after inserting a fresh key. -/
theorem wsum_aupdate_none {α : Type} (w : α → Nat) {l : List (String × α)}
    {k : String} (hl : alookup l k = none) (v : α) :
    wsum w (aupdate l k v) = wsum w l + w v := by
  induction l with
  | nil => simp [aupdate, wsum]
  | cons p rest ih =>
    obtain ⟨k0, u⟩ := p
    by_cases h0 : k0 = k
    · subst h0
      simp [alookup] at hl
    · simp [alookup, h0] at hl
      have := ih hl
      simp [aupdate, h0, wsum] at this ⊢
      omega

/-- Unfolding lemma for `wsum` over a cons cell. -/
theorem wsum_cons {α : Type} (w : α → Nat) (p : String × α) (l : List (String × α)) :
    wsum w (p :: l) = w p.2 + wsum w l := by
  simp [wsum]

/-- Merging bucket maps adds their count sums. -/
theorem wsum_mergeHeaderFiles (l b : List (String × ParentHeaderInfo)) :
    wsum ParentHeaderInfo.count (mergeHeaderFiles b l) =
      wsum ParentHeaderInfo.count b + wsum ParentHeaderInfo.count l := by
  induction l generalizing b with
  | nil => simp [mergeHeaderFiles, wsum]
  | cons p rest ih =>
    obtain ⟨hn, info⟩ := p
    cases hb : alookup b hn with
    | some selfInfo =>
      have hup := wsum_aupdate_some ParentHeaderInfo.count hb (combineHeaderInfo selfInfo info)
      have hcc : (combineHeaderInfo selfInfo info).count = selfInfo.count + info.count := rfl
      rw [hcc] at hup
      simp only [mergeHeaderFiles, hb, ih, wsum_cons]
      omega
    | none =>
      have hup := wsum_aupdate_none ParentHeaderInfo.count hb info
      simp only [mergeHeaderFiles, hb, ih, wsum_cons]
      omega

/-- A successful merge keeps the receiving entity's name and kind. -/
theorem combine_preserves_identity {a b c : Entity} (h : a.combine b = .ok c) :
    c.name = a.name ∧ c.event_name = a.event_name := by
  unfold Entity.combine at h
  split at h
  · cases h
  · split at h
    · cases h
    · cases h
      exact ⟨rfl, rfl⟩

/-- The result of a successful merge, field by field. -/
theorem combine_fields {a b c : Entity} (h : a.combine b = .ok c) :
    c = { a with
      duration := a.duration + b.duration
      parent_sources_info :=
        { count := a.parent_sources_info.count + b.parent_sources_info.count
          duration := a.parent_sources_info.duration + b.parent_sources_info.duration }
      parent_header_files := mergeHeaderFiles a.parent_header_files b.parent_header_files } := by
  unfold Entity.combine at h
  split at h
  · cases h
  · split at h
    · cases h
    · cases h
      rfl

/-- A successful merge adds the attribution counts of its arguments. -/
theorem entityAttr_combine {a b c : Entity} (h : a.combine b = .ok c) :
    entityAttr c = entityAttr a + entityAttr b := by
  rw [combine_fields h]
  simp [entityAttr, wsum_mergeHeaderFiles]
  omega

/-- A kind-preserving refinement of the entity map keeps `tracked`. -/
theorem tracked_of_kindPreserving {E E2 : List (String × Entity)}
    {l : List TimeInfo} (htr : tracked E l) (hkp : kindPreserving E E2) :
    tracked E2 l := by
  intro t ht
  obtain ⟨e0, he0, hs⟩ := htr t ht
  obtain ⟨e1, he1, hk⟩ := hkp _ _ he0
  exact ⟨e1, he1, hk.trans hs⟩

/-- Everything `_add_event` guarantees on success: attribution bookkeeping,
untouched totals and pending list, presence of the entity under its name with
its kind, kind preservation for all names, and key distinctness. -/
theorem add_event_facts {s : TraceStatistics} {ent : Entity} {s1 : TraceStatistics}
    (h : s.add_event ent = .ok s1) :
    attrSum s1.entities = attrSum s.entities + entityAttr ent ∧
    s1.time_infos = s.time_infos ∧
    s1.total = s.total ∧
    (∃ c, alookup s1.entities ent.name = some c ∧ c.event_name = ent.event_name) ∧
    kindPreserving s.entities s1.entities ∧
    (nodupKeys s.entities → nodupKeys s1.entities) := by
  unfold TraceStatistics.add_event at h
  cases hl : alookup s.entities ent.name with
  | some existed =>
    simp only [hl] at h
    by_cases hkind : existed.event_name ≠ ent.event_name
    · rw [if_pos hkind] at h
      cases h
    · rw [if_neg hkind] at h
      push_neg at hkind
      cases hc : existed.combine ent with
      | error e2 => simp only [hc] at h; cases h
      | ok combined =>
        simp only [hc] at h
        cases h
        have hattr := wsum_aupdate_some entityAttr hl combined
        have hcomb := entityAttr_combine hc
        have hid := combine_preserves_identity hc
        refine ⟨?_, rfl, rfl, ?_, ?_, ?_⟩
        · simp only [attrSum] at hattr ⊢
          omega
        · exact ⟨combined, by simp [alookup_aupdate], hid.2.trans hkind⟩
        · intro n e0 he0
          by_cases hn : ent.name = n
          · subst hn
            rw [hl] at he0
            cases he0
            exact ⟨combined, by simp [alookup_aupdate], hid.2⟩
          · exact ⟨e0, by simp [alookup_aupdate, hn, he0], rfl⟩
        · intro hnd
          exact nodupKeys_aupdate hnd _ _
  | none =>
    simp only [hl] at h
    cases h
    refine ⟨?_, rfl, rfl, ?_, ?_, ?_⟩
    · simp only [attrSum]
      rw [wsum_aupdate_none entityAttr hl]
    · exact ⟨ent, by simp [alookup_aupdate], rfl⟩
    · intro n e0 he0
      by_cases hn : ent.name = n
      · subst hn
        rw [hl] at he0
        cases he0
      · exact ⟨e0, by simp [alookup_aupdate, hn, he0], rfl⟩
    · intro hnd
      exact nodupKeys_aupdate hnd _ _

/-- Everything a successful `load_event` guarantees: attribution counts are
unchanged, exactly the `Source`-classified events append one pending
occurrence, pending occurrences keep naming header-parse entities, and key
distinctness is kept. -/
theorem load_event_facts {s : TraceStatistics} {e : RawEvent} {s1 : TraceStatistics}
    (h : s.load_event e = .ok s1) :
    attrSum s1.entities = attrSum s.entities ∧
    s1.time_infos.length = s.time_infos.length +
      (if e.ph = "X" ∧ e.name = "Source" then 1 else 0) ∧
    (tracked s.entities s.time_infos → tracked s1.entities s1.time_infos) ∧
    (nodupKeys s.entities → nodupKeys s1.entities) := by
  unfold TraceStatistics.load_event at h
  by_cases hph : e.ph ∈ EXPECTED_EVENT_TYPES
  · rw [if_neg (by simpa using hph)] at h
    by_cases hpid : e.pid = EXPECTED_PID
    · rw [if_neg (by simp [hpid])] at h
      by_cases hig : e.ph ∈ IGNORED_EVENT_TYPES ∨ e.name ∈ IGNORED_EVENT_NAMES
      · rw [if_pos hig] at h
        cases h
        have hcond : ¬(e.ph = "X" ∧ e.name = "Source") := by
          rcases hig with hm | hn
          · simp [IGNORED_EVENT_TYPES] at hm
            intro hc
            rw [hc.1] at hm
            exact absurd hm (by decide)
          · intro hc
            rw [hc.2] at hn
            exact (by decide : "Source" ∉ IGNORED_EVENT_NAMES) hn
        simp [hcond]
      · rw [if_neg hig] at h
        have hphX : e.ph = "X" := by
          rcases (by simpa [EXPECTED_EVENT_TYPES] using hph) with h1 | h1
          · exact absurd (Or.inl (by simp [IGNORED_EVENT_TYPES, h1])) hig
          · exact h1
        cases hdur : e.dur with
        | missing => simp only [hdur] at h; cases h
        | str sv => simp only [hdur] at h; cases h
        | int d =>
          simp only [hdur] at h
          by_cases hu : e.name ∈ PROCESSED_UNIQUE_EVENT_NAMES
          · rw [if_pos hu] at h
            have hns : ¬(e.ph = "X" ∧ e.name = "Source") := by
              intro hc
              rw [hc.2] at hu
              exact (by decide : "Source" ∉ PROCESSED_UNIQUE_EVENT_NAMES) hu
            unfold TraceStatistics.set_total at h
            split at h
            · cases h
              simp [hns]
            · cases h
          · rw [if_neg hu] at h
            cases htid : e.tid with
            | missing => simp only [htid] at h; cases h
            | str tv =>
              simp only [htid] at h
              rw [if_pos (by simp [JVal.eqInt])] at h
              cases h
            | int ti =>
              simp only [htid] at h
              by_cases htq : (JVal.int ti).eqInt EXPECTED_TID_FOR_NON_UNIQUE_EVENTS = true
              · rw [if_neg (by simp [htq])] at h
                by_cases hnu : e.name ∈ PROCESSED_NON_UNIQUE_EVENT_NAMES
                · rw [if_neg (by simp [hnu])] at h
                  cases hdet : e.detail with
                  | missing => simp only [hdet] at h; cases h
                  | int dv => simp only [hdet] at h; cases h
                  | str dn =>
                    simp only [hdet] at h
                    cases ha : s.add_event
                        { name := dn, event_name := e.name, duration := d,
                          parent_sources_info := ⟨0, 0⟩, parent_header_files := [] } with
                    | error e2 => simp only [ha] at h; cases h
                    | ok s2 =>
                      simp only [ha] at h
                      obtain ⟨hattr, htime, htotal, hlook, hkp, hnd⟩ := add_event_facts ha
                      have hea : entityAttr
                          { name := dn, event_name := e.name, duration := d,
                            parent_sources_info := (⟨0, 0⟩ : ParentSourcesInfo),
                            parent_header_files := [] } = 0 := by
                        simp [entityAttr, wsum]
                      by_cases hsrc : e.name = "Source"
                      · rw [if_pos hsrc] at h
                        cases hts : e.ts with
                        | missing => simp only [hts] at h; cases h
                        | str sv => simp only [hts] at h; cases h
                        | int ts0 =>
                          simp only [hts] at h
                          cases h
                          refine ⟨by simp [hattr, hea], ?_, ?_, hnd⟩
                          · simp [htime, hphX, hsrc]
                          · intro htr t ht
                            rcases List.mem_append.mp ht with hold | hnew
                            · rw [htime] at hold
                              obtain ⟨e0, he0, hs0⟩ := htr t hold
                              obtain ⟨e1, he1, hk1⟩ := hkp _ _ he0
                              exact ⟨e1, he1, hk1.trans hs0⟩
                            · rw [List.mem_singleton] at hnew
                              subst hnew
                              obtain ⟨c, hc, hck⟩ := hlook
                              exact ⟨c, hc, by rw [hck, hsrc]⟩
                      · rw [if_neg hsrc] at h
                        cases h
                        refine ⟨by simp [hattr, hea], ?_, ?_, hnd⟩
                        · simp [htime, hsrc]
                        · intro htr
                          rw [htime]
                          exact tracked_of_kindPreserving htr hkp
                · rw [if_pos (by simp [hnu])] at h
                  cases h
              · rw [if_pos htq] at h
                cases h
    · rw [if_pos (by simp [hpid])] at h
      cases h
  · rw [if_pos (by simpa using hph)] at h
    cases h

/-- `loadEvents` accumulates the per-event facts: attribution counts stay
put, the pending list grows by one per `Source`-classified event, and the
`tracked` and key-distinctness invariants are preserved. -/
theorem loadEvents_facts {es : List RawEvent} {s s1 : TraceStatistics}
    (h : loadEvents s es = .ok s1) :
    attrSum s1.entities = attrSum s.entities ∧
    s1.time_infos.length = s.time_infos.length + countSource es ∧
    (tracked s.entities s.time_infos → tracked s1.entities s1.time_infos) ∧
    (nodupKeys s.entities → nodupKeys s1.entities) := by
  induction es generalizing s with
  | nil =>
    cases h
    exact ⟨rfl, by simp [countSource], fun x => x, fun x => x⟩
  | cons e rest ih =>
    unfold loadEvents at h
    cases hl : s.load_event e with
    | error err => simp only [hl] at h; cases h
    | ok s2 =>
      simp only [hl] at h
      obtain ⟨a1, t1, tr1, n1⟩ := load_event_facts hl
      obtain ⟨a2, t2, tr2, n2⟩ := ih h
      refine ⟨a2.trans a1, ?_, fun htr => tr2 (tr1 htr), fun hnd => n2 (n1 hnd)⟩
      rw [t2, t1]
      simp only [countSource]
      rw [Nat.add_assoc]

/-- The bucket update performed for one popped occurrence raises its entity's
attribution count by exactly one. -/
theorem popLoop_attr {cur : TimeInfo} {st st2 : List TimeInfo}
    {E E2 : List (String × Entity)} (h : popLoop cur st E = .ok (st2, E2)) :
    attrSum E2 + st2.length = attrSum E + st.length := by
  induction st generalizing E with
  | nil =>
    simp only [popLoop, Except.ok.injEq, Prod.mk.injEq] at h
    obtain ⟨rfl, rfl⟩ := h
    rfl
  | cons top rest ih =>
    simp only [popLoop] at h
    by_cases hle : cur.timestamp ≤ top.timestamp
    · rw [if_pos hle] at h
      by_cases hct : top.timestamp + top.duration ≤ cur.timestamp + cur.duration
      · rw [if_pos hct] at h
        cases hEnt : alookup E top.entity_name with
        | none => simp only [hEnt] at h; cases h
        | some entity =>
          simp only [hEnt] at h
          cases hbuck : alookup entity.parent_header_files cur.entity_name with
          | some info =>
            simp only [hbuck] at h
            have hih := ih h
            have hw := wsum_aupdate_some ParentHeaderInfo.count hbuck
              (ParentHeaderInfo.mk (info.count + 1) info.file_name
                (info.duration + top.duration))
            have he := wsum_aupdate_some entityAttr hEnt
              (Entity.mk entity.name entity.event_name entity.duration
                entity.parent_sources_info
                (aupdate entity.parent_header_files cur.entity_name
                  (ParentHeaderInfo.mk (info.count + 1) info.file_name
                    (info.duration + top.duration))))
            simp [entityAttr, attrSum] at hw he hih ⊢
            omega
          | none =>
            simp only [hbuck] at h
            have hih := ih h
            have hw := wsum_aupdate_none ParentHeaderInfo.count hbuck
              (ParentHeaderInfo.mk 1 cur.entity_name top.duration)
            have he := wsum_aupdate_some entityAttr hEnt
              (Entity.mk entity.name entity.event_name entity.duration
                entity.parent_sources_info
                (aupdate entity.parent_header_files cur.entity_name
                  (ParentHeaderInfo.mk 1 cur.entity_name top.duration)))
            simp [entityAttr, attrSum] at hw he hih ⊢
            omega
      · rw [if_neg hct] at h
        cases h
    · rw [if_neg hle] at h
      simp only [Except.ok.injEq, Prod.mk.injEq] at h
      obtain ⟨rfl, rfl⟩ := h
      rfl

/-- The resolver loop conserves attribution-plus-pending counts. -/
theorem finishLoop_attr {infos st stF : List TimeInfo} {E EF : List (String × Entity)}
    (h : finishLoop infos st E = .ok (stF, EF)) :
    attrSum EF + stF.length = attrSum E + st.length + infos.length := by
  induction infos generalizing st E with
  | nil =>
    simp only [finishLoop, Except.ok.injEq, Prod.mk.injEq] at h
    obtain ⟨rfl, rfl⟩ := h
    simp
  | cons cur rest ih =>
    simp only [finishLoop] at h
    cases hp : popLoop cur st E with
    | error e => simp only [hp] at h; cases h
    | ok p =>
      obtain ⟨st2, E1⟩ := p
      simp only [hp] at h
      have h1 := popLoop_attr hp
      have h2 := ih h
      simp only [List.length_cons] at h2 ⊢
      omega

/-- The final attribution loop adds one count per remaining occurrence. -/
theorem addParentSources_attr {l : List TimeInfo} {E E2 : List (String × Entity)}
    (h : addParentSources l E = .ok E2) :
    attrSum E2 = attrSum E + l.length := by
  induction l generalizing E with
  | nil => cases h; simp
  | cons info rest ih =>
    simp only [addParentSources] at h
    cases hEnt : alookup E info.entity_name with
    | none => simp only [hEnt] at h; cases h
    | some entity =>
      simp only [hEnt] at h
      have hih := ih h
      have he := wsum_aupdate_some entityAttr hEnt
        (Entity.mk entity.name entity.event_name entity.duration
          (ParentSourcesInfo.mk (entity.parent_sources_info.count + 1)
            (entity.parent_sources_info.duration + info.duration))
          entity.parent_header_files)
      simp [entityAttr, attrSum] at he hih ⊢
      omega

/-- Updating an existing entity with a value of the same kind keeps
`tracked`. -/
theorem tracked_aupdate {E : List (String × Entity)} {l : List TimeInfo}
    {k : String} {e v : Entity} (htr : tracked E l) (hk : alookup E k = some e)
    (hkind : v.event_name = e.event_name) : tracked (aupdate E k v) l := by
  intro t ht
  obtain ⟨e0, he0, hs⟩ := htr t ht
  rw [alookup_aupdate]
  by_cases hkt : k = t.entity_name
  · rw [hkt] at hk
    rw [hk] at he0
    cases he0
    exact ⟨v, by simp [hkt], by rw [hkind, hs]⟩
  · exact ⟨e0, by simp [hkt, he0], hs⟩

/-- The pop loop keeps `tracked` for any occurrence list. -/
theorem popLoop_tracked {cur : TimeInfo} {st st2 : List TimeInfo}
    {E E2 : List (String × Entity)} {l : List TimeInfo}
    (h : popLoop cur st E = .ok (st2, E2)) (htr : tracked E l) : tracked E2 l := by
  induction st generalizing E with
  | nil =>
    simp only [popLoop, Except.ok.injEq, Prod.mk.injEq] at h
    obtain ⟨rfl, rfl⟩ := h
    exact htr
  | cons top rest ih =>
    simp only [popLoop] at h
    by_cases hle : cur.timestamp ≤ top.timestamp
    · rw [if_pos hle] at h
      by_cases hct : top.timestamp + top.duration ≤ cur.timestamp + cur.duration
      · rw [if_pos hct] at h
        cases hEnt : alookup E top.entity_name with
        | none => simp only [hEnt] at h; cases h
        | some entity =>
          simp only [hEnt] at h
          cases hbuck : alookup entity.parent_header_files cur.entity_name with
          | some info =>
            simp only [hbuck] at h
            exact ih h (tracked_aupdate htr hEnt rfl)
          | none =>
            simp only [hbuck] at h
            exact ih h (tracked_aupdate htr hEnt rfl)
      · rw [if_neg hct] at h
        cases h
    · rw [if_neg hle] at h
      simp only [Except.ok.injEq, Prod.mk.injEq] at h
      obtain ⟨rfl, rfl⟩ := h
      exact htr

/-- Every occurrence remaining after the pop loop was already waiting. -/
theorem popLoop_subset {cur : TimeInfo} {st st2 : List TimeInfo}
    {E E2 : List (String × Entity)} (h : popLoop cur st E = .ok (st2, E2)) :
    ∀ t ∈ st2, t ∈ st := by
  induction st generalizing E with
  | nil =>
    simp only [popLoop, Except.ok.injEq, Prod.mk.injEq] at h
    obtain ⟨rfl, rfl⟩ := h
    exact fun t ht => ht
  | cons top rest ih =>
    simp only [popLoop] at h
    by_cases hle : cur.timestamp ≤ top.timestamp
    · rw [if_pos hle] at h
      by_cases hct : top.timestamp + top.duration ≤ cur.timestamp + cur.duration
      · rw [if_pos hct] at h
        cases hEnt : alookup E top.entity_name with
        | none => simp only [hEnt] at h; cases h
        | some entity =>
          simp only [hEnt] at h
          cases hbuck : alookup entity.parent_header_files cur.entity_name with
          | some info =>
            simp only [hbuck] at h
            exact fun t ht => List.mem_cons_of_mem _ (ih h t ht)
          | none =>
            simp only [hbuck] at h
            exact fun t ht => List.mem_cons_of_mem _ (ih h t ht)
      · rw [if_neg hct] at h
        cases h
    · rw [if_neg hle] at h
      simp only [Except.ok.injEq, Prod.mk.injEq] at h
      obtain ⟨rfl, rfl⟩ := h
      exact fun t ht => ht

/-- Every entity that is not a header parse is untouched by the pop loop. -/
theorem popLoop_untouched {cur : TimeInfo} {st st2 : List TimeInfo}
    {E E2 : List (String × Entity)} (h : popLoop cur st E = .ok (st2, E2))
    (htr : tracked E st) :
    ∀ n e2, alookup E2 n = some e2 → e2.event_name ≠ "Source" →
      alookup E n = some e2 := by
  induction st generalizing E with
  | nil =>
    simp only [popLoop, Except.ok.injEq, Prod.mk.injEq] at h
    obtain ⟨rfl, rfl⟩ := h
    exact fun n e2 he _ => he
  | cons top rest ih =>
    simp only [popLoop] at h
    by_cases hle : cur.timestamp ≤ top.timestamp
    · rw [if_pos hle] at h
      by_cases hct : top.timestamp + top.duration ≤ cur.timestamp + cur.duration
      · rw [if_pos hct] at h
        cases hEnt : alookup E top.entity_name with
        | none => simp only [hEnt] at h; cases h
        | some entity =>
          simp only [hEnt] at h
          obtain ⟨e0, he0, hs0⟩ := htr top (List.mem_cons_self top rest)
          rw [hEnt] at he0
          cases he0
          cases hbuck : alookup entity.parent_header_files cur.entity_name with
          | some info =>
            simp only [hbuck] at h
            intro n e2 he2 hk
            have hmid := ih h (tracked_aupdate (fun t ht => htr t (List.mem_cons_of_mem _ ht))
              hEnt rfl) n e2 he2 hk
            rw [alookup_aupdate] at hmid
            by_cases hn : top.entity_name = n
            · rw [if_pos hn] at hmid
              cases hmid
              exact absurd hs0 hk
            · rw [if_neg hn] at hmid
              exact hmid
          | none =>
            simp only [hbuck] at h
            intro n e2 he2 hk
            have hmid := ih h (tracked_aupdate (fun t ht => htr t (List.mem_cons_of_mem _ ht))
              hEnt rfl) n e2 he2 hk
            rw [alookup_aupdate] at hmid
            by_cases hn : top.entity_name = n
            · rw [if_pos hn] at hmid
              cases hmid
              exact absurd hs0 hk
            · rw [if_neg hn] at hmid
              exact hmid
      · rw [if_neg hct] at h
        cases h
    · rw [if_neg hle] at h
      simp only [Except.ok.injEq, Prod.mk.injEq] at h
      obtain ⟨rfl, rfl⟩ := h
      exact fun n e2 he _ => he

/-- The pop loop keeps keys distinct. -/
theorem popLoop_nodup {cur : TimeInfo} {st st2 : List TimeInfo}
    {E E2 : List (String × Entity)} (h : popLoop cur st E = .ok (st2, E2))
    (hnd : nodupKeys E) : nodupKeys E2 := by
  induction st generalizing E with
  | nil =>
    simp only [popLoop, Except.ok.injEq, Prod.mk.injEq] at h
    obtain ⟨rfl, rfl⟩ := h
    exact hnd
  | cons top rest ih =>
    simp only [popLoop] at h
    by_cases hle : cur.timestamp ≤ top.timestamp
    · rw [if_pos hle] at h
      by_cases hct : top.timestamp + top.duration ≤ cur.timestamp + cur.duration
      · rw [if_pos hct] at h
        cases hEnt : alookup E top.entity_name with
        | none => simp only [hEnt] at h; cases h
        | some entity =>
          simp only [hEnt] at h
          cases hbuck : alookup entity.parent_header_files cur.entity_name with
          | some info =>
            simp only [hbuck] at h
            exact ih h (nodupKeys_aupdate hnd _ _)
          | none =>
            simp only [hbuck] at h
            exact ih h (nodupKeys_aupdate hnd _ _)
      · rw [if_neg hct] at h
        cases h
    · rw [if_neg hle] at h
      simp only [Except.ok.injEq, Prod.mk.injEq] at h
      obtain ⟨rfl, rfl⟩ := h
      exact hnd

/-- The resolver's outer loop keeps the untouched-unless-header-parse
property, trackedness of the remaining stack, and key distinctness. -/
theorem finishLoop_untouched {infos st stF : List TimeInfo}
    {E EF : List (String × Entity)} (h : finishLoop infos st E = .ok (stF, EF))
    (htrSt : tracked E st) (htrIn : tracked E infos) (hnd : nodupKeys E) :
    (∀ n e2, alookup EF n = some e2 → e2.event_name ≠ "Source" →
      alookup E n = some e2) ∧
    tracked EF stF ∧ nodupKeys EF := by
  induction infos generalizing st E with
  | nil =>
    simp only [finishLoop, Except.ok.injEq, Prod.mk.injEq] at h
    obtain ⟨rfl, rfl⟩ := h
    exact ⟨fun n e2 he _ => he, htrSt, hnd⟩
  | cons cur rest ih =>
    simp only [finishLoop] at h
    cases hp : popLoop cur st E with
    | error e => simp only [hp] at h; cases h
    | ok p =>
      obtain ⟨st2, E1⟩ := p
      simp only [hp] at h
      have hsub := popLoop_subset hp
      have htrCur : tracked E1 (cur :: st2) := by
        refine popLoop_tracked hp ?_
        intro t ht
        rcases List.mem_cons.mp ht with rfl | hm
        · exact htrIn t (List.mem_cons_self t rest)
        · exact htrSt t (hsub t hm)
      have htrRest : tracked E1 rest :=
        popLoop_tracked hp (fun t ht => htrIn t (List.mem_cons_of_mem _ ht))
      have hunt1 := popLoop_untouched hp htrSt
      obtain ⟨hunt2, htrF, hndF⟩ := ih h htrCur htrRest (popLoop_nodup hp hnd)
      exact ⟨fun n e2 he hk => hunt1 n e2 (hunt2 n e2 he hk) hk, htrF, hndF⟩

/-- The final attribution loop touches only header-parse entities and keeps
keys distinct. -/
theorem addParentSources_untouched {l : List TimeInfo}
    {E E2 : List (String × Entity)} (h : addParentSources l E = .ok E2)
    (htr : tracked E l) (hnd : nodupKeys E) :
    (∀ n e2, alookup E2 n = some e2 → e2.event_name ≠ "Source" →
      alookup E n = some e2) ∧ nodupKeys E2 := by
  induction l generalizing E with
  | nil =>
    cases h
    exact ⟨fun n e2 he _ => he, hnd⟩
  | cons info rest ih =>
    simp only [addParentSources] at h
    cases hEnt : alookup E info.entity_name with
    | none => simp only [hEnt] at h; cases h
    | some entity =>
      simp only [hEnt] at h
      obtain ⟨e0, he0, hs0⟩ := htr info (List.mem_cons_self info rest)
      rw [hEnt] at he0
      cases he0
      have htr2 : tracked (aupdate E info.entity_name
          (Entity.mk entity.name entity.event_name entity.duration
            (ParentSourcesInfo.mk (entity.parent_sources_info.count + 1)
              (entity.parent_sources_info.duration + info.duration))
            entity.parent_header_files)) rest :=
        tracked_aupdate (fun t ht => htr t (List.mem_cons_of_mem _ ht)) hEnt rfl
      obtain ⟨hunt, hndF⟩ := ih h htr2 (nodupKeys_aupdate hnd _ _)
      refine ⟨?_, hndF⟩
      intro n e2 he2 hk
      have hmid := hunt n e2 he2 hk
      rw [alookup_aupdate] at hmid
      by_cases hn : info.entity_name = n
      · rw [if_pos hn] at hmid
        cases hmid
        exact absurd hs0 hk
      · rw [if_neg hn] at hmid
        exact hmid

/-- Everything a successful `finish` guarantees: the attribution total grows
by exactly the number of pending occurrences, and — on states whose pending
occurrences name header-parse entities — keys stay distinct and entities that
are not header parses are untouched. -/
theorem finish_facts {s s2 : TraceStatistics} (h : s.finish = .ok s2) :
    attrSum s2.entities = attrSum s.entities + s.time_infos.length ∧
    (tracked s.entities s.time_infos → nodupKeys s.entities →
      nodupKeys s2.entities ∧
      ∀ n e2, alookup s2.entities n = some e2 → e2.event_name ≠ "Source" →
        alookup s.entities n = some e2) := by
  unfold TraceStatistics.finish at h
  split at h
  · cases h
  · cases hfl : finishLoop s.time_infos [] s.entities with
    | error e => rw [hfl] at h; cases h
    | ok p =>
      obtain ⟨st, E1⟩ := p
      rw [hfl] at h
      cases hps : addParentSources st.reverse E1 with
      | error e => simp only [hps] at h; cases h
      | ok E2 =>
        simp only [hps] at h
        cases h
        have ha1 := finishLoop_attr hfl
        have ha2 := addParentSources_attr hps
        rw [List.length_reverse] at ha2
        simp only [List.length_nil] at ha1
        refine ⟨?_, ?_⟩
        · show attrSum E2 = attrSum s.entities + s.time_infos.length
          omega
        intro htr hnd
        have htrSt : tracked s.entities ([] : List TimeInfo) := by
          intro t ht
          cases ht
        obtain ⟨hunt2, htrF, hndF⟩ := finishLoop_untouched hfl htrSt htr hnd
        have htrR : tracked E1 st.reverse := fun t ht => htrF t (List.mem_reverse.mp ht)
        obtain ⟨hunt3, hnd2⟩ := addParentSources_untouched hps htrR hndF
        exact ⟨hnd2, fun n e2 he hk => hunt2 n e2 (hunt3 n e2 he hk) hk⟩

/-- A weighted sum splits along any boolean filter. -/
theorem wsum_filter_split {α : Type} (w : α → Nat) (q : String × α → Bool)
    (l : List (String × α)) :
    wsum w l = wsum w (l.filter q) + wsum w (l.filter fun p => !(q p)) := by
  induction l with
  | nil => simp [wsum]
  | cons p rest ih =>
    by_cases hq : q p
    · simp [List.filter_cons, hq, wsum_cons, ih]
      omega
    · simp [List.filter_cons, hq, wsum_cons, ih]
      omega

/-- A weighted sum of zeros is zero. -/
theorem wsum_zero_of {α : Type} (w : α → Nat) {l : List (String × α)}
    (h : ∀ p ∈ l, w p.2 = 0) : wsum w l = 0 := by
  induction l with
  | nil => rfl
  | cons p rest ih =>
    rw [wsum_cons, h p (List.mem_cons_self p rest),
      ih fun q hq => h q (List.mem_cons_of_mem p hq)]

/-- A zero weighted sum makes every weight zero. -/
theorem wsum_zero_mem {α : Type} (w : α → Nat) {l : List (String × α)}
    (h : wsum w l = 0) : ∀ p ∈ l, w p.2 = 0 := by
  induction l with
  | nil => intro p hp; cases hp
  | cons p rest ih =>
    rw [wsum_cons] at h
    intro q hq
    rcases List.mem_cons.mp hq with rfl | hm
    · omega
    · exact ih (by omega) q hm

/-- Claim C9: for a per-file run that loads successfully and finishes
successfully, attribution is conserved — the sum over the header-parse
entities of `parent_sources_info.count` plus all their parent-bucket counts
equals the number of `Source` occurrences that were loaded; every other
entity carries no attribution at all, so each occurrence is attributed
exactly once. -/
theorem c9_attribution_conservation (es : List RawEvent) (s s2 : TraceStatistics)
    (h1 : loadEvents TraceStatistics.init es = .ok s)
    (h2 : s.finish = .ok s2) :
    attrSumSource s2.entities = countSource es := by
  obtain ⟨a1, t1, tr1, n1⟩ := loadEvents_facts h1
  have hA : attrSum s.entities = 0 := by rw [a1]; rfl
  have hT : s.time_infos.length = countSource es := by
    simpa [TraceStatistics.init] using t1
  have htr : tracked s.entities s.time_infos := by
    refine tr1 ?_
    intro t ht
    simp [TraceStatistics.init] at ht
  have hnd : nodupKeys s.entities := by
    refine n1 ?_
    simp [nodupKeys, TraceStatistics.init]
  obtain ⟨fa, frest⟩ := finish_facts h2
  obtain ⟨hnd2, hunt⟩ := frest htr hnd
  have hA2 : attrSum s2.entities = countSource es := by
    rw [fa, hA, hT]
    omega
  have hzero : ∀ p ∈ s.entities, entityAttr p.2 = 0 := wsum_zero_mem entityAttr hA
  have hzz : wsum entityAttr
      (s2.entities.filter fun p => !(p.2.event_name == "Source")) = 0 := by
    refine wsum_zero_of entityAttr ?_
    intro p hp
    obtain ⟨hp1, hp2⟩ := List.mem_filter.mp hp
    have hkk : p.2.event_name ≠ "Source" := by simpa using hp2
    obtain ⟨n, e2⟩ := p
    have hl2 : alookup s2.entities n = some e2 := mem_alookup hnd2 hp1
    have hl1 : alookup s.entities n = some e2 := hunt n e2 hl2 hkk
    exact hzero (n, e2) (alookup_mem hl1)
  have hsplit := wsum_filter_split entityAttr
    (fun p => p.2.event_name == "Source") s2.entities
  simp only [attrSumSource, attrSum] at hA2 hsplit hzz ⊢
  omega

/-- Witness for C9: conservation evaluated on scenario A — two `Source`
occurrences were loaded and exactly two attributions were recorded. -/
theorem c9_witness :
    attrSumSource scenarioAFinal.entities = countSource scenarioAEvents :=
  c9_attribution_conservation scenarioAEvents scenarioALoaded scenarioAFinal
    (by decide) (by decide)

/-! Lemmas for claim C4: the cross-file fold is order-independent. -/

/-- Bucket-content union is commutative. -/
theorem ptAdd_comm (x y : Option (Nat × Int)) : ptAdd x y = ptAdd y x := by
  cases x with
  | none => cases y <;> rfl
  | some a =>
    cases y with
    | none => rfl
    | some b =>
      simp only [ptAdd, Option.some.injEq, Prod.mk.injEq]
      omega

/-- Bucket-content union is associative. -/
theorem ptAdd_assoc (x y z : Option (Nat × Int)) :
    ptAdd (ptAdd x y) z = ptAdd x (ptAdd y z) := by
  cases x <;> cases y <;> cases z <;>
    simp only [ptAdd, Option.some.injEq, Prod.mk.injEq] <;> omega

/-- A key outside a bucket list contributes nothing. -/
theorem ePH_notmem {l : List (String × ParentHeaderInfo)} {h : String}
    (hm : h ∉ l.map Prod.fst) : ePH l h = none := by
  induction l with
  | nil => rfl
  | cons p rest ih =>
    obtain ⟨k, i⟩ := p
    simp only [List.map_cons, List.mem_cons] at hm
    push_neg at hm
    have hk : ¬ k = h := fun he => hm.1 he.symm
    simp [ePH, hk, ih hm.2]

/-- With distinct keys the contribution at a key is just its lookup. -/
theorem ePH_eq_phAbs {l : List (String × ParentHeaderInfo)} (hnd : nodupKeys l)
    (h : String) : ePH l h = phAbs (alookup l h) := by
  induction l with
  | nil => rfl
  | cons p rest ih =>
    obtain ⟨k, i⟩ := p
    obtain ⟨hknot, hndr⟩ := List.nodup_cons.mp hnd
    by_cases hk : k = h
    · subst hk
      rw [ePH, if_pos rfl, ePH_notmem hknot]
      simp [alookup, phAbs, ptAdd]
    · simp [ePH, alookup, hk, ih hndr]

/-- Pointwise description of the bucket-merge loop: the result at a key is
the base's lookup plus the incoming list's total contribution there. -/
theorem mergeHF_phAbs (l b : List (String × ParentHeaderInfo)) (h : String) :
    phAbs (alookup (mergeHeaderFiles b l) h) =
      ptAdd (phAbs (alookup b h)) (ePH l h) := by
  induction l generalizing b with
  | nil =>
    cases hx : alookup b h <;> simp [mergeHeaderFiles, ePH, ptAdd, hx, phAbs]
  | cons p rest ih =>
    obtain ⟨k, i⟩ := p
    simp only [mergeHeaderFiles]
    cases hb : alookup b k with
    | some selfInfo =>
      rw [ih, alookup_aupdate]
      by_cases hk : k = h
      · subst hk
        rw [if_pos rfl, hb, ePH, if_pos rfl, ← ptAdd_assoc]
        simp [phAbs, combineHeaderInfo, ptAdd]
      · rw [if_neg hk, ePH, if_neg hk]
    | none =>
      rw [ih, alookup_aupdate]
      by_cases hk : k = h
      · subst hk
        rw [if_pos rfl, hb, ePH, if_pos rfl]
        simp [phAbs, ptAdd]
      · rw [if_neg hk, ePH, if_neg hk]

/-- The bucket-merge loop keeps keys distinct. -/
theorem mergeHF_nodup {b : List (String × ParentHeaderInfo)}
    (hnd : nodupKeys b) (l : List (String × ParentHeaderInfo)) :
    nodupKeys (mergeHeaderFiles b l) := by
  induction l generalizing b with
  | nil => exact hnd
  | cons p rest ih =>
    obtain ⟨k, i⟩ := p
    simp only [mergeHeaderFiles]
    cases hb : alookup b k with
    | some selfInfo => exact ih (nodupKeys_aupdate hnd _ _)
    | none => exact ih (nodupKeys_aupdate hnd _ _)

/-- A successful `combine` requires equal names and kinds. -/
theorem combine_ok_conditions {a b c : Entity} (h : a.combine b = .ok c) :
    a.name = b.name ∧ a.event_name = b.event_name := by
  unfold Entity.combine at h
  split at h
  · cases h
  · rename_i hn
    split at h
    · cases h
    · rename_i hk
      push_neg at hn hk
      exact ⟨hn, hk⟩

/-- With equal names and kinds, `combine` succeeds with the componentwise
merge. -/
theorem combine_eq_ok {a b : Entity} (hn : a.name = b.name)
    (hk : a.event_name = b.event_name) :
    a.combine b = .ok { a with
      duration := a.duration + b.duration
      parent_sources_info :=
        { count := a.parent_sources_info.count + b.parent_sources_info.count
          duration := a.parent_sources_info.duration + b.parent_sources_info.duration }
      parent_header_files := mergeHeaderFiles a.parent_header_files b.parent_header_files } := by
  simp [Entity.combine, hn, hk]

/-- With different names or kinds, `combine` fails. -/
theorem combine_error_of {a b : Entity}
    (h : ¬(a.name = b.name ∧ a.event_name = b.event_name)) :
    ∃ err, a.combine b = .error err := by
  by_cases hn : a.name = b.name
  · have hk : a.event_name ≠ b.event_name := fun hk => h ⟨hn, hk⟩
    exact ⟨.inconsistentEventNames a.name, by simp [Entity.combine, hn, hk]⟩
  · exact ⟨.combineDifferentEntities a.name b.name, by simp [Entity.combine, hn]⟩

/-- `EntityEquiv` is reflexive. -/
theorem EntityEquiv_refl (a : Entity) : EntityEquiv a a :=
  ⟨rfl, rfl, rfl, rfl, fun _ => rfl⟩

/-- `EntityEquiv` is transitive. -/
theorem EntityEquiv_trans {a b c : Entity} (h1 : EntityEquiv a b)
    (h2 : EntityEquiv b c) : EntityEquiv a c :=
  ⟨h1.1.trans h2.1, h1.2.1.trans h2.2.1, h1.2.2.1.trans h2.2.2.1,
   h1.2.2.2.1.trans h2.2.2.2.1, fun h => (h1.2.2.2.2 h).trans (h2.2.2.2.2 h)⟩

/-- `oRel` is reflexive. -/
theorem oRel_refl (x : Option Entity) : oRel x x := by
  cases x with
  | none => trivial
  | some a => exact EntityEquiv_refl a

/-- `oRel` is transitive. -/
theorem oRel_trans {x y z : Option Entity} (h1 : oRel x y) (h2 : oRel y z) :
    oRel x z := by
  cases x <;> cases y <;> cases z <;> first
    | trivial
    | exact EntityEquiv_trans h1 h2
    | cases h1
    | cases h2

/-- `entitiesEquiv` is reflexive. -/
theorem entitiesEquiv_refl (x : List (String × Entity)) : entitiesEquiv x x :=
  fun n => oRel_refl (alookup x n)

/-- `entitiesEquiv` is transitive. -/
theorem entitiesEquiv_trans {x y z : List (String × Entity)}
    (h1 : entitiesEquiv x y) (h2 : entitiesEquiv y z) : entitiesEquiv x z :=
  fun n => oRel_trans (h1 n) (h2 n)

/-- `TotalEquiv` is reflexive. -/
theorem TotalEquiv_refl (t : TotalStatistics) : TotalEquiv t t :=
  ⟨rfl, rfl, rfl, entitiesEquiv_refl t.entities⟩

/-- `TotalEquiv` is transitive. -/
theorem TotalEquiv_trans {t u v : TotalStatistics} (h1 : TotalEquiv t u)
    (h2 : TotalEquiv u v) : TotalEquiv t v :=
  ⟨h1.1.trans h2.1, h1.2.1.trans h2.2.1, h1.2.2.1.trans h2.2.2.1,
   entitiesEquiv_trans h1.2.2.2 h2.2.2.2⟩

/-- `ExceptRel` is transitive when its value relation is. -/
theorem ExceptRel_trans {ε α : Type} {R : α → α → Prop}
    (hR : ∀ a b c, R a b → R b c → R a c) {x y z : Except ε α}
    (h1 : ExceptRel R x y) (h2 : ExceptRel R y z) : ExceptRel R x z := by
  cases x <;> cases y <;> cases z <;> first
    | trivial
    | exact hR _ _ _ h1 h2
    | cases h1
    | cases h2

/-- Merging in either order gives equivalent entities (the only asymmetry,
the bucket `file_name`s, is outside the equivalence). -/
theorem combine_comm {a b ca cb : Entity} (hca : a.combine b = .ok ca)
    (hcb : b.combine a = .ok cb) (hna : nodupKeys a.parent_header_files)
    (hnb : nodupKeys b.parent_header_files) : EntityEquiv ca cb := by
  obtain ⟨hn, hk⟩ := combine_ok_conditions hca
  rw [combine_fields hca, combine_fields hcb]
  refine ⟨hn, hk, ?_, ?_, ?_⟩
  · show a.duration + b.duration = b.duration + a.duration
    omega
  · show ParentSourcesInfo.mk
        (a.parent_sources_info.count + b.parent_sources_info.count)
        (a.parent_sources_info.duration + b.parent_sources_info.duration) =
      ParentSourcesInfo.mk
        (b.parent_sources_info.count + a.parent_sources_info.count)
        (b.parent_sources_info.duration + a.parent_sources_info.duration)
    simp only [ParentSourcesInfo.mk.injEq]
    constructor <;> omega
  · intro h
    show phAbs (alookup (mergeHeaderFiles a.parent_header_files b.parent_header_files) h) =
      phAbs (alookup (mergeHeaderFiles b.parent_header_files a.parent_header_files) h)
    rw [mergeHF_phAbs, mergeHF_phAbs, ePH_eq_phAbs hnb, ePH_eq_phAbs hna]
    exact ptAdd_comm _ _

/-- Merging two entities into an accumulator in either order gives
equivalent results. -/
theorem combine_rcomm {t a b c1 c2 c3 c4 : Entity}
    (h1 : t.combine a = .ok c1) (h2 : c1.combine b = .ok c2)
    (h3 : t.combine b = .ok c3) (h4 : c3.combine a = .ok c4) :
    EntityEquiv c2 c4 := by
  have e1 := combine_fields h1
  have e3 := combine_fields h3
  rw [combine_fields h2, combine_fields h4, e1, e3]
  refine ⟨rfl, rfl, by simp; omega, ?_, ?_⟩
  · simp only [ParentSourcesInfo.mk.injEq]
    constructor <;> omega
  · intro h
    simp only
    rw [mergeHF_phAbs, mergeHF_phAbs, mergeHF_phAbs, mergeHF_phAbs]
    rw [ptAdd_assoc, ptAdd_assoc, ptAdd_comm (ePH a.parent_header_files h)]

/-- `combine` respects entity equivalence in its first argument: both sides
fail together or produce equivalent entities. -/
theorem combine_congr {a a2 : Entity} (he : EntityEquiv a a2) (x : Entity) :
    ExceptRel EntityEquiv (a.combine x) (a2.combine x) := by
  obtain ⟨hn, hk, hd, hp, hb⟩ := he
  by_cases h1 : a.name = x.name
  · by_cases h3 : a.event_name = x.event_name
    · rw [combine_eq_ok h1 h3, combine_eq_ok (hn ▸ h1) (hk ▸ h3)]
      refine ⟨hn, hk, by rw [hd], by rw [hp], ?_⟩
      intro h
      rw [mergeHF_phAbs, mergeHF_phAbs, hb h]
    · obtain ⟨e1, he1⟩ := combine_error_of (fun hc => h3 hc.2)
      obtain ⟨e2, he2⟩ := combine_error_of
        (fun hc => h3 (hk.symm ▸ hc.2 : a.event_name = x.event_name))
      rw [he1, he2]
      trivial
  · obtain ⟨e1, he1⟩ := combine_error_of (fun hc => h1 hc.1)
    obtain ⟨e2, he2⟩ := combine_error_of
      (fun hc => h1 (hn.symm ▸ hc.1 : a.name = x.name))
    rw [he1, he2]
    trivial

/-- `mstep` respects entity equivalence in the accumulator argument. -/
theorem mstep_congr {o o2 x : Option Entity} (he : oRel o o2) :
    ExceptRel oRel (mstep o x) (mstep o2 x) := by
  cases x with
  | none => exact he
  | some e =>
    cases o with
    | none =>
      cases o2 with
      | none => exact EntityEquiv_refl e
      | some b => cases he
    | some a =>
      cases o2 with
      | none => cases he
      | some a2 =>
        have hcc := combine_congr he e
        simp only [mstep]
        cases hc1 : a.combine e with
        | error e1 =>
          cases hc2 : a2.combine e with
          | error e2 => trivial
          | ok c2 => rw [hc1, hc2] at hcc; cases hcc
        | ok c1 =>
          cases hc2 : a2.combine e with
          | error e2 => rw [hc1, hc2] at hcc; cases hcc
          | ok c2 =>
            rw [hc1, hc2] at hcc
            exact hcc

/-- Per-key description of a successful cross-file entity merge. -/
theorem merge_pointwise {acc out l : List (String × Entity)} (hnd : nodupKeys l)
    (h : mergeEntitiesInto acc l = .ok out) :
    ∀ n, mstep (alookup acc n) (alookup l n) = .ok (alookup out n) := by
  induction l generalizing acc with
  | nil =>
    cases h
    intro n
    rfl
  | cons p rest ih =>
    obtain ⟨k, e⟩ := p
    obtain ⟨hknot, hndr⟩ := List.nodup_cons.mp hnd
    have hrestk : alookup rest k = none := (alookup_eq_none rest k).mpr hknot
    simp only [mergeEntitiesInto] at h
    cases hacc : alookup acc k with
    | some existed =>
      simp only [hacc] at h
      cases hc : existed.combine e with
      | error err => simp only [hc] at h; cases h
      | ok combined =>
        simp only [hc] at h
        have hih := ih hndr h
        intro n
        by_cases hn : k = n
        · subst hn
          have hthis := hih k
          rw [alookup_aupdate, if_pos rfl, hrestk] at hthis
          have hlk : alookup ((k, e) :: rest) k = some e := by simp [alookup]
          rw [hlk, hacc]
          simp only [mstep]
          rw [hc]
          exact hthis
        · have hthis := hih n
          rw [alookup_aupdate, if_neg hn] at hthis
          simpa [alookup, hn] using hthis
    | none =>
      simp only [hacc] at h
      have hih := ih hndr h
      intro n
      by_cases hn : k = n
      · subst hn
        have hthis := hih k
        rw [alookup_aupdate, if_pos rfl, hrestk] at hthis
        have hlk : alookup ((k, e) :: rest) k = some e := by simp [alookup]
        rw [hlk, hacc]
        exact hthis
      · have hthis := hih n
        rw [alookup_aupdate, if_neg hn] at hthis
        simpa [alookup, hn] using hthis

/-- A failing cross-file entity merge fails at some key. -/
theorem merge_pointwise_err {acc l : List (String × Entity)} {err : TraceError}
    (hnd : nodupKeys l) (h : mergeEntitiesInto acc l = .error err) :
    ∃ n e2, mstep (alookup acc n) (alookup l n) = .error e2 := by
  induction l generalizing acc with
  | nil => cases h
  | cons p rest ih =>
    obtain ⟨k, e⟩ := p
    obtain ⟨hknot, hndr⟩ := List.nodup_cons.mp hnd
    have hrestk : alookup rest k = none := (alookup_eq_none rest k).mpr hknot
    simp only [mergeEntitiesInto] at h
    cases hacc : alookup acc k with
    | some existed =>
      simp only [hacc] at h
      cases hc : existed.combine e with
      | error e2 =>
        exact ⟨k, e2, by simp [mstep, alookup, hacc, hc]⟩
      | ok combined =>
        simp only [hc] at h
        obtain ⟨n, e2, hm⟩ := ih hndr h
        by_cases hn : k = n
        · subst hn
          rw [alookup_aupdate, if_pos rfl, hrestk] at hm
          cases hm
        · rw [alookup_aupdate, if_neg hn] at hm
          exact ⟨n, e2, by simpa [alookup, hn] using hm⟩
    | none =>
      simp only [hacc] at h
      obtain ⟨n, e2, hm⟩ := ih hndr h
      by_cases hn : k = n
      · subst hn
        rw [alookup_aupdate, if_pos rfl, hrestk] at hm
        cases hm
      · rw [alookup_aupdate, if_neg hn] at hm
        exact ⟨n, e2, by simpa [alookup, hn] using hm⟩

/-- A key failure forces the whole cross-file entity merge to fail. -/
theorem merge_err_of_pointwise {acc l : List (String × Entity)} {n : String}
    {e2 : TraceError} (hnd : nodupKeys l)
    (hm : mstep (alookup acc n) (alookup l n) = .error e2) :
    ∃ err, mergeEntitiesInto acc l = .error err := by
  cases hres : mergeEntitiesInto acc l with
  | error err => exact ⟨err, rfl⟩
  | ok out =>
    have := merge_pointwise hnd hres n
    rw [hm] at this
    cases this

/-- At one name, merging two files' entities in either order fails together
or gives equivalent entities. -/
theorem twoStep_swap {o x y : Option Entity}
    (hx : ∀ a, x = some a → nodupKeys a.parent_header_files)
    (hy : ∀ b, y = some b → nodupKeys b.parent_header_files) :
    ExceptRel oRel (twoStep o x y) (twoStep o y x) := by
  have hnone : ∀ oo : Option Entity, mstep oo none = .ok oo := fun oo => rfl
  cases x with
  | none =>
    cases hmy : mstep o y with
    | error e =>
      have hL : twoStep o none y = .error e := by
        simp only [twoStep, hnone, hmy]
      have hR : twoStep o y none = .error e := by
        simp only [twoStep, hmy]
      rw [hL, hR]
      trivial
    | ok o1 =>
      have hL : twoStep o none y = .ok o1 := by
        simp only [twoStep, hnone, hmy]
      have hR : twoStep o y none = .ok o1 := by
        simp only [twoStep, hmy, hnone]
      rw [hL, hR]
      exact oRel_refl o1
  | some a =>
    cases y with
    | none =>
      cases hmx : mstep o (some a) with
      | error e =>
        have hL : twoStep o (some a) none = .error e := by
          simp only [twoStep, hmx]
        have hR : twoStep o none (some a) = .error e := by
          simp only [twoStep, hnone, hmx]
        rw [hL, hR]
        trivial
      | ok o1 =>
        have hL : twoStep o (some a) none = .ok o1 := by
          simp only [twoStep, hmx, hnone]
        have hR : twoStep o none (some a) = .ok o1 := by
          simp only [twoStep, hnone, hmx]
        rw [hL, hR]
        exact oRel_refl o1
    | some b =>
      cases o with
      | none =>
        cases hab : a.combine b with
        | error e1 =>
          cases hba : b.combine a with
          | error e2 => simp [twoStep, mstep, hab, hba, ExceptRel]
          | ok cb =>
            obtain ⟨hn, hk⟩ := combine_ok_conditions hba
            rw [combine_eq_ok hn.symm hk.symm] at hab
            cases hab
        | ok ca =>
          cases hba : b.combine a with
          | error e2 =>
            obtain ⟨hn, hk⟩ := combine_ok_conditions hab
            rw [combine_eq_ok hn.symm hk.symm] at hba
            cases hba
          | ok cb =>
            simp only [twoStep, mstep, hab, hba]
            exact combine_comm hab hba (hx a rfl) (hy b rfl)
      | some t =>
        by_cases hta : t.name = a.name ∧ t.event_name = a.event_name
        · cases h1 : t.combine a with
          | error e1 =>
            rw [combine_eq_ok hta.1 hta.2] at h1
            cases h1
          | ok c1 =>
            have hc1id := combine_preserves_identity h1
            by_cases htb : t.name = b.name ∧ t.event_name = b.event_name
            · cases h3 : t.combine b with
              | error e3 =>
                rw [combine_eq_ok htb.1 htb.2] at h3
                cases h3
              | ok c3 =>
                have hc3id := combine_preserves_identity h3
                cases h2 : c1.combine b with
                | error e2 =>
                  rw [combine_eq_ok (hc1id.1.trans htb.1) (hc1id.2.trans htb.2)] at h2
                  cases h2
                | ok c2 =>
                  cases h4 : c3.combine a with
                  | error e4 =>
                    rw [combine_eq_ok (hc3id.1.trans hta.1) (hc3id.2.trans hta.2)] at h4
                    cases h4
                  | ok c4 =>
                    simp only [twoStep, mstep, h1, h2, h3, h4]
                    exact combine_rcomm h1 h2 h3 h4
            · obtain ⟨e3, h3⟩ := combine_error_of htb
              have h2cond : ¬(c1.name = b.name ∧ c1.event_name = b.event_name) := by
                intro hc
                exact htb ⟨hc1id.1.symm.trans hc.1, hc1id.2.symm.trans hc.2⟩
              obtain ⟨e2, h2⟩ := combine_error_of h2cond
              simp [twoStep, mstep, h1, h2, h3, ExceptRel]
        · obtain ⟨e1, h1⟩ := combine_error_of hta
          by_cases htb : t.name = b.name ∧ t.event_name = b.event_name
          · cases h3 : t.combine b with
            | error e3 =>
              rw [combine_eq_ok htb.1 htb.2] at h3
              cases h3
            | ok c3 =>
              have hc3id := combine_preserves_identity h3
              have h4cond : ¬(c3.name = a.name ∧ c3.event_name = a.event_name) := by
                intro hc
                exact hta ⟨hc3id.1.symm.trans hc.1, hc3id.2.symm.trans hc.2⟩
              obtain ⟨e4, h4⟩ := combine_error_of h4cond
              simp [twoStep, mstep, h1, h3, h4, ExceptRel]
          · obtain ⟨e3, h3⟩ := combine_error_of htb
            simp [twoStep, mstep, h1, h3, ExceptRel]

/-- Writing equivalent values under the same key preserves map
equivalence. -/
theorem entitiesEquiv_aupdate {E E2 : List (String × Entity)} {k : String}
    {v v2 : Entity} (he : entitiesEquiv E E2) (hv : EntityEquiv v v2) :
    entitiesEquiv (aupdate E k v) (aupdate E2 k v2) := by
  intro n
  rw [alookup_aupdate, alookup_aupdate]
  by_cases hn : k = n
  · rw [if_pos hn, if_pos hn]
    exact hv
  · rw [if_neg hn, if_neg hn]
    exact he n

/-- Merging one file's entities into equivalent aggregates fails together or
yields equivalent aggregates. -/
theorem merge_congr {E E2 : List (String × Entity)} (l : List (String × Entity))
    (he : entitiesEquiv E E2) :
    ExceptRel entitiesEquiv (mergeEntitiesInto E l) (mergeEntitiesInto E2 l) := by
  induction l generalizing E E2 with
  | nil => exact he
  | cons p rest ih =>
    obtain ⟨k, e⟩ := p
    simp only [mergeEntitiesInto]
    have hk := he k
    cases h1 : alookup E k with
    | none =>
      cases h2 : alookup E2 k with
      | none => exact ih (entitiesEquiv_aupdate he (EntityEquiv_refl e))
      | some b =>
        rw [h1, h2] at hk
        cases hk
    | some a =>
      cases h2 : alookup E2 k with
      | none =>
        rw [h1, h2] at hk
        cases hk
      | some a2 =>
        rw [h1, h2] at hk
        have hcc := combine_congr hk e
        cases hc1 : a.combine e with
        | error e1 =>
          cases hc2 : a2.combine e with
          | error e2 =>
            simp only [hc1, hc2]
            trivial
          | ok c2 =>
            rw [hc1, hc2] at hcc
            cases hcc
        | ok c1 =>
          cases hc2 : a2.combine e with
          | error e2 =>
            rw [hc1, hc2] at hcc
            cases hcc
          | ok c2 =>
            rw [hc1, hc2] at hcc
            simp only [hc1, hc2]
            exact ih (entitiesEquiv_aupdate he hcc)

/-- Bucket-dict distinctness of every entity found in a well-formed map. -/
theorem entsWF_alookup {l : List (String × Entity)} (h : entsWF l) :
    ∀ n a, alookup l n = some a → nodupKeys a.parent_header_files :=
  fun n a ha => h.2 (n, a) (alookup_mem ha)

/-- Merging two well-formed files' entity maps into an aggregate in either
order fails together or yields equivalent aggregates. -/
theorem merge_swap {E la lb : List (String × Entity)} (hla : entsWF la)
    (hlb : entsWF lb) :
    ExceptRel entitiesEquiv
      (match mergeEntitiesInto E la with
       | .error e => .error e
       | .ok m => mergeEntitiesInto m lb)
      (match mergeEntitiesInto E lb with
       | .error e => .error e
       | .ok m => mergeEntitiesInto m la) := by
  have P : ∀ n, ExceptRel oRel
      (twoStep (alookup E n) (alookup la n) (alookup lb n))
      (twoStep (alookup E n) (alookup lb n) (alookup la n)) := fun n =>
    twoStep_swap (fun a ha => entsWF_alookup hla n a ha)
      (fun b hb => entsWF_alookup hlb n b hb)
  cases h1 : mergeEntitiesInto E la with
  | error e1 =>
    obtain ⟨n, e2, hm⟩ := merge_pointwise_err hla.1 h1
    cases hb : mergeEntitiesInto E lb with
    | error e3 =>
      simp only [h1, hb]
      trivial
    | ok m2 =>
      have hpb := merge_pointwise hlb.1 hb
      have hPn := P n
      have hLn : twoStep (alookup E n) (alookup la n) (alookup lb n) = .error e2 := by
        simp only [twoStep, hm]
      have hRn : twoStep (alookup E n) (alookup lb n) (alookup la n) =
          mstep (alookup m2 n) (alookup la n) := by
        simp only [twoStep, hpb n]
      rw [hLn, hRn] at hPn
      cases hmm : mstep (alookup m2 n) (alookup la n) with
      | ok o1 =>
        rw [hmm] at hPn
        cases hPn
      | error e4 =>
        obtain ⟨err, herr⟩ := merge_err_of_pointwise hla.1 hmm
        simp only [h1, hb, herr]
        trivial
  | ok m1 =>
    have hpa := merge_pointwise hla.1 h1
    cases h2 : mergeEntitiesInto m1 lb with
    | error e2 =>
      obtain ⟨n, e3, hm⟩ := merge_pointwise_err hlb.1 h2
      have hPn := P n
      have hLn : twoStep (alookup E n) (alookup la n) (alookup lb n) = .error e3 := by
        simp only [twoStep, hpa n, hm]
      rw [hLn] at hPn
      cases hb : mergeEntitiesInto E lb with
      | error e4 =>
        simp only [h1, h2, hb]
        trivial
      | ok m2 =>
        have hpb := merge_pointwise hlb.1 hb
        have hRn : twoStep (alookup E n) (alookup lb n) (alookup la n) =
            mstep (alookup m2 n) (alookup la n) := by
          simp only [twoStep, hpb n]
        rw [hRn] at hPn
        cases hmm : mstep (alookup m2 n) (alookup la n) with
        | ok o1 =>
          rw [hmm] at hPn
          cases hPn
        | error e5 =>
          obtain ⟨err, herr⟩ := merge_err_of_pointwise hla.1 hmm
          simp only [h1, h2, hb, herr]
          trivial
    | ok mfinal =>
      have hp2 := merge_pointwise hlb.1 h2
      cases hb : mergeEntitiesInto E lb with
      | error e3 =>
        obtain ⟨n, e4, hm⟩ := merge_pointwise_err hlb.1 hb
        have hPn := P n
        have hLn : twoStep (alookup E n) (alookup la n) (alookup lb n) =
            .ok (alookup mfinal n) := by
          simp only [twoStep, hpa n, hp2 n]
        have hRn : twoStep (alookup E n) (alookup lb n) (alookup la n) = .error e4 := by
          simp only [twoStep, hm]
        rw [hLn, hRn] at hPn
        cases hPn
      | ok m2 =>
        have hpb := merge_pointwise hlb.1 hb
        cases h4 : mergeEntitiesInto m2 la with
        | error e4 =>
          obtain ⟨n, e5, hm⟩ := merge_pointwise_err hla.1 h4
          have hPn := P n
          have hLn : twoStep (alookup E n) (alookup la n) (alookup lb n) =
              .ok (alookup mfinal n) := by
            simp only [twoStep, hpa n, hp2 n]
          have hRn : twoStep (alookup E n) (alookup lb n) (alookup la n) =
              .error e5 := by
            simp only [twoStep, hpb n, hm]
          rw [hLn, hRn] at hPn
          cases hPn
        | ok mfinal2 =>
          have hp4 := merge_pointwise hla.1 h4
          simp only [h1, h2, hb, h4]
          intro n
          have hPn := P n
          have hLn : twoStep (alookup E n) (alookup la n) (alookup lb n) =
              .ok (alookup mfinal n) := by
            simp only [twoStep, hpa n, hp2 n]
          have hRn : twoStep (alookup E n) (alookup lb n) (alookup la n) =
              .ok (alookup mfinal2 n) := by
            simp only [twoStep, hpb n, hp4 n]
          rw [hLn, hRn] at hPn
          exact hPn

/-- Membership after a dict write. -/
theorem mem_aupdate {α : Type} {l : List (String × α)} {k : String} {v : α}
    {p : String × α} (h : p ∈ aupdate l k v) : p = (k, v) ∨ p ∈ l := by
  induction l with
  | nil =>
    rw [show aupdate ([] : List (String × α)) k v = [(k, v)] from rfl] at h
    exact Or.inl (List.mem_singleton.mp h)
  | cons q rest ih =>
    obtain ⟨k0, v0⟩ := q
    by_cases h0 : k0 = k
    · subst h0
      rw [show aupdate ((k0, v0) :: rest) k0 v = (k0, v) :: rest from by
        simp [aupdate]] at h
      rcases List.mem_cons.mp h with h2 | hm
      · exact Or.inl h2
      · exact Or.inr (List.mem_cons_of_mem _ hm)
    · rw [show aupdate ((k0, v0) :: rest) k v = (k0, v0) :: aupdate rest k v from by
        simp [aupdate, h0]] at h
      rcases List.mem_cons.mp h with h2 | hm
      · exact Or.inr (by rw [h2]; exact List.mem_cons_self _ _)
      · rcases ih hm with h3 | h3
        · exact Or.inl h3
        · exact Or.inr (List.mem_cons_of_mem _ h3)

/-- A dict write with a well-formed value keeps the map well-formed. -/
theorem entsWF_aupdate {E : List (String × Entity)} {k : String} {v : Entity}
    (h : entsWF E) (hv : nodupKeys v.parent_header_files) :
    entsWF (aupdate E k v) := by
  refine ⟨nodupKeys_aupdate h.1 _ _, ?_⟩
  intro p hp
  rcases mem_aupdate hp with h2 | hm
  · rw [h2]
    exact hv
  · exact h.2 p hm

/-- The pop loop keeps the entity map well-formed. -/
theorem popLoop_entsWF {cur : TimeInfo} {st st2 : List TimeInfo}
    {E E2 : List (String × Entity)} (h : popLoop cur st E = .ok (st2, E2))
    (hwf : entsWF E) : entsWF E2 := by
  induction st generalizing E with
  | nil =>
    simp only [popLoop, Except.ok.injEq, Prod.mk.injEq] at h
    obtain ⟨rfl, rfl⟩ := h
    exact hwf
  | cons top rest ih =>
    simp only [popLoop] at h
    by_cases hle : cur.timestamp ≤ top.timestamp
    · rw [if_pos hle] at h
      by_cases hct : top.timestamp + top.duration ≤ cur.timestamp + cur.duration
      · rw [if_pos hct] at h
        cases hEnt : alookup E top.entity_name with
        | none => simp only [hEnt] at h; cases h
        | some entity =>
          simp only [hEnt] at h
          have hbn := entsWF_alookup hwf top.entity_name entity hEnt
          cases hbuck : alookup entity.parent_header_files cur.entity_name with
          | some info =>
            simp only [hbuck] at h
            exact ih h (entsWF_aupdate hwf (nodupKeys_aupdate hbn _ _))
          | none =>
            simp only [hbuck] at h
            exact ih h (entsWF_aupdate hwf (nodupKeys_aupdate hbn _ _))
      · rw [if_neg hct] at h
        cases h
    · rw [if_neg hle] at h
      simp only [Except.ok.injEq, Prod.mk.injEq] at h
      obtain ⟨rfl, rfl⟩ := h
      exact hwf

/-- The resolver's outer loop keeps the entity map well-formed. -/
theorem finishLoop_entsWF {infos st stF : List TimeInfo}
    {E EF : List (String × Entity)} (h : finishLoop infos st E = .ok (stF, EF))
    (hwf : entsWF E) : entsWF EF := by
  induction infos generalizing st E with
  | nil =>
    simp only [finishLoop, Except.ok.injEq, Prod.mk.injEq] at h
    obtain ⟨rfl, rfl⟩ := h
    exact hwf
  | cons cur rest ih =>
    simp only [finishLoop] at h
    cases hp : popLoop cur st E with
    | error e => simp only [hp] at h; cases h
    | ok p =>
      obtain ⟨st2, E1⟩ := p
      simp only [hp] at h
      exact ih h (popLoop_entsWF hp hwf)

/-- The final attribution loop keeps the entity map well-formed. -/
theorem addParentSources_entsWF {l : List TimeInfo}
    {E E2 : List (String × Entity)} (h : addParentSources l E = .ok E2)
    (hwf : entsWF E) : entsWF E2 := by
  induction l generalizing E with
  | nil => cases h; exact hwf
  | cons info rest ih =>
    simp only [addParentSources] at h
    cases hEnt : alookup E info.entity_name with
    | none => simp only [hEnt] at h; cases h
    | some entity =>
      simp only [hEnt] at h
      exact ih h (entsWF_aupdate hwf (entsWF_alookup hwf info.entity_name entity hEnt))

/-- `finish` keeps the entity map well-formed. -/
theorem finish_entsWF {s s2 : TraceStatistics} (hwf : entsWF s.entities)
    (h : s.finish = .ok s2) : entsWF s2.entities := by
  unfold TraceStatistics.finish at h
  split at h
  · cases h
  · cases hfl : finishLoop s.time_infos [] s.entities with
    | error e => rw [hfl] at h; cases h
    | ok p =>
      obtain ⟨st, E1⟩ := p
      rw [hfl] at h
      cases hps : addParentSources st.reverse E1 with
      | error e => simp only [hps] at h; cases h
      | ok E2 =>
        simp only [hps] at h
        cases h
        exact addParentSources_entsWF hps (finishLoop_entsWF hfl hwf)

/-- Adding two file totals to a running total commutes. -/
theorem Totals_add_right_comm (t a b : Totals) :
    (t.add a).add b = (t.add b).add a := by
  simp only [Totals.add, Totals.mk.injEq]
  refine ⟨?_, ?_, ?_, ?_, ?_, ?_⟩ <;> omega

/-- Normal form of one cross-file fold step. -/
theorem pfs1_eq (t : TotalStatistics) (size : Int) (fs : TraceStatistics) :
    t.process_file_stats size fs =
      match fs.finish with
      | .error e => .error e
      | .ok fs2 =>
        match mergeEntitiesInto t.entities fs2.entities with
        | .error e => .error e
        | .ok m =>
          .ok ⟨t.total.add fs2.total, m, t.file_count + 1,
               t.total_trace_file_size + size⟩ := by
  unfold TotalStatistics.process_file_stats
  rfl

/-- Normal form of two consecutive cross-file fold steps. -/
theorem pfs2_eq (t : TotalStatistics) (sa sb : Int) (fa fb : TraceStatistics) :
    ((match t.process_file_stats sa fa with
      | .error e => .error e
      | .ok t1 => t1.process_file_stats sb fb) :
        Except TraceError TotalStatistics) =
      match fa.finish with
      | .error e => .error e
      | .ok fa2 =>
        match mergeEntitiesInto t.entities fa2.entities with
        | .error e => .error e
        | .ok m1 =>
          match fb.finish with
          | .error e => .error e
          | .ok fb2 =>
            match mergeEntitiesInto m1 fb2.entities with
            | .error e => .error e
            | .ok mf =>
              .ok ⟨(t.total.add fa2.total).add fb2.total, mf,
                   t.file_count + 1 + 1, t.total_trace_file_size + sa + sb⟩ := by
  rw [pfs1_eq t sa fa]
  cases fa.finish with
  | error e => rfl
  | ok fa2 =>
    dsimp only
    cases mergeEntitiesInto t.entities fa2.entities with
    | error e => rfl
    | ok m1 =>
      dsimp only
      rw [pfs1_eq]

/-- One fold step applied to equivalent aggregates fails together or yields
equivalent aggregates. -/
theorem pfs_congr {t u : TotalStatistics} (he : TotalEquiv t u) (size : Int)
    (fs : TraceStatistics) :
    ExceptRel TotalEquiv (t.process_file_stats size fs)
      (u.process_file_stats size fs) := by
  rw [pfs1_eq t size fs, pfs1_eq u size fs]
  cases hf : fs.finish with
  | error e => trivial
  | ok fs2 =>
    have hm := merge_congr fs2.entities he.2.2.2
    cases h1 : mergeEntitiesInto t.entities fs2.entities with
    | error e1 =>
      cases h2 : mergeEntitiesInto u.entities fs2.entities with
      | error e2 =>
        simp only [h1, h2]
        trivial
      | ok m2 =>
        rw [h1, h2] at hm
        cases hm
    | ok m1 =>
      cases h2 : mergeEntitiesInto u.entities fs2.entities with
      | error e2 =>
        rw [h1, h2] at hm
        cases hm
      | ok m2 =>
        rw [h1, h2] at hm
        simp only [h1, h2]
        refine ⟨?_, ?_, ?_, hm⟩
        · show t.total.add fs2.total = u.total.add fs2.total
          rw [he.1]
        · show t.file_count + 1 = u.file_count + 1
          rw [he.2.1]
        · show t.total_trace_file_size + size = u.total_trace_file_size + size
          rw [he.2.2.1]

/-- Two fold steps on well-formed files commute up to `TotalEquiv`. -/
theorem pfs_swap (t : TotalStatistics) (sa sb : Int) (fa fb : TraceStatistics)
    (hwa : entsWF fa.entities) (hwb : entsWF fb.entities) :
    ExceptRel TotalEquiv
      (match t.process_file_stats sa fa with
       | .error e => .error e
       | .ok t1 => t1.process_file_stats sb fb)
      (match t.process_file_stats sb fb with
       | .error e => .error e
       | .ok t1 => t1.process_file_stats sa fa) := by
  rw [pfs2_eq t sa sb fa fb, pfs2_eq t sb sa fb fa]
  cases hfa : fa.finish with
  | error ea =>
    cases hfb : fb.finish with
    | error eb => trivial
    | ok fb2 =>
      cases hmb : mergeEntitiesInto t.entities fb2.entities with
      | error e => simp only [hmb]; trivial
      | ok m2 => simp only [hmb]; trivial
  | ok fa2 =>
    cases hfb : fb.finish with
    | error eb =>
      cases hma : mergeEntitiesInto t.entities fa2.entities with
      | error e => simp only [hma]; trivial
      | ok m1 => simp only [hma]; trivial
    | ok fb2 =>
      have hwa2 := finish_entsWF hwa hfa
      have hwb2 := finish_entsWF hwb hfb
      have hsw := merge_swap (E := t.entities) hwa2 hwb2
      cases h1 : mergeEntitiesInto t.entities fa2.entities with
      | error e1 =>
        simp only [h1]
        simp only [h1] at hsw
        cases h3 : mergeEntitiesInto t.entities fb2.entities with
        | error e3 =>
          simp only [h3]
          trivial
        | ok m2 =>
          simp only [h3]
          simp only [h3] at hsw
          cases h4 : mergeEntitiesInto m2 fa2.entities with
          | error e4 =>
            simp only [h4]
            trivial
          | ok mf2 =>
            rw [h4] at hsw
            cases hsw
      | ok m1 =>
        simp only [h1]
        simp only [h1] at hsw
        cases h2 : mergeEntitiesInto m1 fb2.entities with
        | error e2 =>
          simp only [h2]
          simp only [h2] at hsw
          cases h3 : mergeEntitiesInto t.entities fb2.entities with
          | error e3 =>
            simp only [h3]
            trivial
          | ok m2 =>
            simp only [h3]
            simp only [h3] at hsw
            cases h4 : mergeEntitiesInto m2 fa2.entities with
            | error e4 =>
              simp only [h4]
              trivial
            | ok mf2 =>
              rw [h4] at hsw
              cases hsw
        | ok mf =>
          simp only [h2]
          simp only [h2] at hsw
          cases h3 : mergeEntitiesInto t.entities fb2.entities with
          | error e3 =>
            simp only [h3] at hsw
            cases hsw
          | ok m2 =>
            simp only [h3]
            simp only [h3] at hsw
            cases h4 : mergeEntitiesInto m2 fa2.entities with
            | error e4 =>
              simp only [h4] at hsw
              cases hsw
            | ok mf2 =>
              simp only [h4]
              simp only [h4] at hsw
              refine ⟨?_, rfl, ?_, hsw⟩
              · show (t.total.add fa2.total).add fb2.total =
                  (t.total.add fb2.total).add fa2.total
                exact Totals_add_right_comm t.total fa2.total fb2.total
              · show t.total_trace_file_size + sa + sb =
                  t.total_trace_file_size + sb + sa
                omega

/-- The whole fold applied to equivalent aggregates fails together or yields
equivalent aggregates. -/
theorem fold_congr (l : List (Int × TraceStatistics)) {t u : TotalStatistics}
    (he : TotalEquiv t u) :
    ExceptRel TotalEquiv (foldFiles t l) (foldFiles u l) := by
  induction l generalizing t u with
  | nil => exact he
  | cons p rest ih =>
    obtain ⟨size, fs⟩ := p
    simp only [foldFiles]
    have hs := pfs_congr he size fs
    cases h1 : t.process_file_stats size fs with
    | error e1 =>
      cases h2 : u.process_file_stats size fs with
      | error e2 =>
        simp only [h1, h2]
        trivial
      | ok u1 =>
        rw [h1, h2] at hs
        cases hs
    | ok t1 =>
      cases h2 : u.process_file_stats size fs with
      | error e2 =>
        rw [h1, h2] at hs
        cases hs
      | ok u1 =>
        rw [h1, h2] at hs
        simp only [h1, h2]
        exact ih hs

/-- Claim C4: folding any collection of well-formed per-file aggregates into
the cross-file aggregator in any order yields the same scalar totals, file
count, total byte size, and name-to-Entity content — same entity names and
kinds, durations, `parent_sources_info`, and every parent bucket's count and
duration (equivalently, the underlying entity merge is commutative and
associative on entities of equal name and kind); a fold that fails in one
order fails in every order. -/
theorem c4_fold_perm_invariant (files files2 : List (Int × TraceStatistics))
    (t : TotalStatistics) (hperm : files.Perm files2) :
    (∀ p ∈ files, entsWF (p.2 : TraceStatistics).entities) →
    ExceptRel TotalEquiv (foldFiles t files) (foldFiles t files2) := by
  induction hperm generalizing t with
  | nil =>
    intro _
    exact TotalEquiv_refl t
  | cons x p ih =>
    intro hwf
    obtain ⟨size, fs⟩ := x
    simp only [foldFiles]
    cases hstep : t.process_file_stats size fs with
    | error e =>
      simp only [hstep]
      trivial
    | ok t1 =>
      simp only [hstep]
      exact ih t1 (fun q hq => hwf q (List.mem_cons_of_mem _ hq))
  | swap x y l =>
    intro hwf
    obtain ⟨sy, fy⟩ := y
    obtain ⟨sx, fx⟩ := x
    have hwy : entsWF fy.entities := hwf (sy, fy) (List.mem_cons_self _ _)
    have hwx : entsWF fx.entities :=
      hwf (sx, fx) (List.mem_cons_of_mem _ (List.mem_cons_self _ _))
    have hsw := pfs_swap t sy sx fy fx hwy hwx
    simp only [foldFiles]
    cases h1 : t.process_file_stats sy fy with
    | error e1 =>
      simp only [h1]
      simp only [h1] at hsw
      cases h3 : t.process_file_stats sx fx with
      | error e3 =>
        simp only [h3]
        trivial
      | ok t3 =>
        simp only [h3]
        simp only [h3] at hsw
        cases h4 : t3.process_file_stats sy fy with
        | error e4 =>
          simp only [h4]
          trivial
        | ok t4 =>
          rw [h4] at hsw
          cases hsw
    | ok t1 =>
      simp only [h1]
      simp only [h1] at hsw
      cases h2 : t1.process_file_stats sx fx with
      | error e2 =>
        simp only [h2]
        simp only [h2] at hsw
        cases h3 : t.process_file_stats sx fx with
        | error e3 =>
          simp only [h3]
          trivial
        | ok t3 =>
          simp only [h3]
          simp only [h3] at hsw
          cases h4 : t3.process_file_stats sy fy with
          | error e4 =>
            simp only [h4]
            trivial
          | ok t4 =>
            rw [h4] at hsw
            cases hsw
      | ok t2 =>
        simp only [h2]
        simp only [h2] at hsw
        cases h3 : t.process_file_stats sx fx with
        | error e3 =>
          simp only [h3] at hsw
          cases hsw
        | ok t3 =>
          simp only [h3]
          simp only [h3] at hsw
          cases h4 : t3.process_file_stats sy fy with
          | error e4 =>
            simp only [h4] at hsw
            cases hsw
          | ok t4 =>
            simp only [h4]
            simp only [h4] at hsw
            exact fold_congr l hsw
  | trans p12 p23 ih1 ih2 =>
    intro hwf
    have hwf2 := fun p hp => hwf p (p12.mem_iff.mpr hp)
    exact ExceptRel_trans (R := TotalEquiv)
      (fun a b c h1 h2 => TotalEquiv_trans h1 h2) (ih1 t hwf) (ih2 t hwf2)

/-- Witness for C4: the two scenario-B-style files folded in both orders. -/
theorem c4_witness :
    ExceptRel TotalEquiv
      (foldFiles TotalStatistics.init [(3, c4file1), (5, c4file2)])
      (foldFiles TotalStatistics.init [(5, c4file2), (3, c4file1)]) :=
  c4_fold_perm_invariant [(3, c4file1), (5, c4file2)] [(5, c4file2), (3, c4file1)]
    TotalStatistics.init (List.Perm.swap (5, c4file2) (3, c4file1) [])
    (by decide)

end CTT
